import Mathlib

/-!
Verification development for the gtnh-daily-updater repository.

Each Go function referenced by the specification is embedded as an
executable Lean definition over `List Char` / `String` data, translated
branch-by-branch from the Go source.  Byte-level Go string operations are
modelled at the character level (the data handled by the program is ASCII,
where the two coincide).  Theorems named `C1_…` to `C10_…` settle the
corresponding claims.
-/

/-! ## Generic Go string helpers (strings package, modelled on List Char) -/

/-- Lexicographic comparison of character lists by code point, mirroring
Go byte-wise string comparison on ASCII data (`strings.Compare`, `<`). -/
def charListCompare : List Char → List Char → Int
  | [], [] => 0
  | [], _ :: _ => -1
  | _ :: _, [] => 1
  | x :: xs, y :: ys =>
    if x.toNat ≠ y.toNat then (if x.toNat < y.toNat then -1 else 1)
    else charListCompare xs ys

/-- `strings.Split` with separator `"."` (always returns at least one group). -/
def splitOnDot : List Char → List (List Char)
  | [] => [[]]
  | c :: rest =>
    if c = '.' then [] :: splitOnDot rest
    else
      match splitOnDot rest with
      | [] => [[c]]
      | g :: gs => (c :: g) :: gs

/-- Value of a non-empty all-digit character list (otherwise `none`). -/
def digitsVal (ds : List Char) : Option Nat :=
  if ds.isEmpty then none
  else if ds.all Char.isDigit then
    some (ds.foldl (fun n c => n * 10 + (c.toNat - 48)) 0)
  else none

/-- `strconv.Atoi`: optional sign followed by digits (overflow is not
modelled; integers are unbounded here). -/
def goAtoi (s : List Char) : Option Int :=
  match s with
  | '+' :: rest => (digitsVal rest).map Int.ofNat
  | '-' :: rest => (digitsVal rest).map (fun n => -(n : Int))
  | _ => (digitsVal s).map Int.ofNat

/-- ASCII lower-casing of one character (`strings.ToLower` on the ASCII
subset actually present in mod file names). -/
def charLower (c : Char) : Char :=
  if 'A' ≤ c ∧ c ≤ 'Z' then Char.ofNat (c.toNat + 32) else c

/-- ASCII `strings.ToLower`. -/
def goToLower (s : List Char) : List Char :=
  s.map charLower

/-- Go `strings.HasSuffix` on character lists. -/
def goHasSuffix (s suffix_ : List Char) : Bool :=
  List.isSuffixOf suffix_ s

/-- Go `strings.TrimSpace` (ASCII whitespace). -/
def goTrimSpace (s : List Char) : List Char :=
  ((s.dropWhile Char.isWhitespace).reverse.dropWhile Char.isWhitespace).reverse

/-! ## internal/semver: version ordering -/

/-- Numeric-run comparison used by the natural order
(`compareNumericRuns`): strip leading zeros (empty becomes "0"), shorter
run of digits is smaller, equal lengths compare lexicographically. -/
def compareNumericRuns (a b : List Char) : Int :=
  let a1 := a.dropWhile (· = '0')
  let b1 := b.dropWhile (· = '0')
  let a2 := if a1.isEmpty then ['0'] else a1
  let b2 := if b1.isEmpty then ['0'] else b1
  if a2.length < b2.length then -1
  else if b2.length < a2.length then 1
  else charListCompare a2 b2

/-- `compareNatural`: numeric-aware natural comparison of raw version
strings (runs of digits compared as integers, other characters by code
point). -/
def compareNatural : List Char → List Char → Int
  | [], [] => 0
  | [], _ :: _ => -1
  | _ :: _, [] => 1
  | x :: xs, y :: ys =>
    if x.isDigit && y.isDigit then
      let c := compareNumericRuns ((x :: xs).takeWhile Char.isDigit)
        ((y :: ys).takeWhile Char.isDigit)
      if c ≠ 0 then c
      else compareNatural ((x :: xs).dropWhile Char.isDigit)
        ((y :: ys).dropWhile Char.isDigit)
    else if x.toNat ≠ y.toNat then (if x.toNat < y.toNat then -1 else 1)
    else compareNatural xs ys
termination_by a b => a.length + b.length
decreasing_by
  · have h1 := (List.dropWhile_sublist (l := x :: xs) (p := Char.isDigit)).length_le
    have h2 := (List.dropWhile_sublist (l := y :: ys) (p := Char.isDigit)).length_le
    have hx : (x :: xs).dropWhile Char.isDigit = xs.dropWhile Char.isDigit := by
      simp only [List.dropWhile_cons]
      simp_all
    have hy : (y :: ys).dropWhile Char.isDigit = ys.dropWhile Char.isDigit := by
      simp only [List.dropWhile_cons]
      simp_all
    have h3 := (List.dropWhile_sublist (l := xs) (p := Char.isDigit)).length_le
    have h4 := (List.dropWhile_sublist (l := ys) (p := Char.isDigit)).length_le
    rw [hx, hy]
    simp only [List.length_cons]
    omega
  · simp only [List.length_cons]
    omega

/-- `splitTrailingNumber`: split a pre-release suffix into a text part and
a trailing integer. -/
def splitTrailingNumber (s : List Char) : List Char × Int :=
  let revDigits := s.reverse.takeWhile Char.isDigit
  if revDigits.isEmpty then (s, 0)
  else
    match goAtoi revDigits.reverse with
    | some n => (s.take (s.length - revDigits.length), n)
    | none => (s, 0)

/-- `comparePreRelease`: text part first, then trailing integer. -/
def comparePreRelease (a b : List Char) : Int :=
  let pa := splitTrailingNumber a
  let pb := splitTrailingNumber b
  let c := charListCompare pa.1 pb.1
  if c ≠ 0 then c
  else if pa.2 < pb.2 then -1
  else if pb.2 < pa.2 then 1
  else 0

/-- `semver.Parse` minus the echoed raw string: returns numeric parts
(`none` mirrors the Go nil slice for non-semver strings) and the
pre-release suffix. -/
def semverParse (v0 : List Char) : Option (List Int) × List Char :=
  let v1 := if v0.head? = some 'v' then v0.tail else v0
  let dotParts := splitOnDot v1
  let firstDot := dotParts.headD []
  let split :=
    match firstDot.findIdx? (· = '-') with
    | some idx =>
      if 0 < idx ∧ (goAtoi (firstDot.take idx)).isSome then
        match v1.findIdx? (· = '-') with
        | some fullIdx =>
          if 0 < fullIdx then (v1.drop fullIdx, v1.take fullIdx) else ([], v1)
        | none => ([], v1)
      else ([], v1)
    | none =>
      if (goAtoi firstDot).isSome then
        match v1.findIdx? (· = '-') with
        | some idx => (v1.drop idx, v1.take idx)
        | none => ([], v1)
      else ([], v1)
  let pre := split.1
  let v2 := split.2
  let nums := (splitOnDot v2).map goAtoi
  let parts := if nums.all Option.isSome then some (nums.map (fun o => o.getD 0)) else none
  (parts, pre)

/-- Numeric-part comparison from `semver.Compare` (missing components are
treated as 0). -/
def comparePartsList : List Int → List Int → Int
  | [], [] => 0
  | [], b :: bs => if 0 ≠ b then (if 0 < b then -1 else 1) else comparePartsList [] bs
  | a :: as, [] => if a ≠ 0 then (if a < 0 then -1 else 1) else comparePartsList as []
  | a :: as, b :: bs => if a ≠ b then (if a < b then -1 else 1) else comparePartsList as bs

/-- `semver.Compare`: -1, 0 or +1.  Semver-like versions compare by parts
then pre-release; raw strings fall back to the natural order and sort
below every semver-like version. -/
def Compare (a b : String) : Int :=
  let pa := semverParse a.data
  let pb := semverParse b.data
  match pa.1, pb.1 with
  | none, none => compareNatural a.data b.data
  | none, some _ => -1
  | some _, none => 1
  | some ap, some bp =>
    let c := comparePartsList ap bp
    if c ≠ 0 then c
    else
      match pa.2.isEmpty, pb.2.isEmpty with
      | true, true => 0
      | false, true => -1
      | true, false => 1
      | false, false => comparePreRelease pa.2 pb.2

/-- C7: the version ordering satisfies the boundary cases stated by the
specification: missing components are 0, numeric components dominate,
pre-release sorts before release, alpha10 beats alpha2, and raw strings
compare with numeric-aware natural order. -/
theorem C7_compare_boundaries :
    Compare "1.2.3" "1.2.3.0" = 0 ∧
    0 < Compare "1.10.0" "1.2.99" ∧
    Compare "1.2.3-rc1" "1.2.3" < 0 ∧
    0 < Compare "1.2.3-alpha10" "1.2.3-alpha2" ∧
    0 < Compare "rv3-beta-834" "rv3-beta-99" := by
  refine ⟨?_, ?_, ?_, ?_, ?_⟩ <;>
    simp [Compare, semverParse, splitOnDot, goAtoi, digitsVal, comparePartsList,
      comparePreRelease, splitTrailingNumber, compareNatural, compareNumericRuns,
      charListCompare]

/-! ## Association-list maps and sorted key iteration

Go maps are modelled as association lists with first-match lookup;
`slices.Sorted(maps.Keys m)` is modelled by sorting the deduplicated key
list. -/

def lookupStr {α : Type} (k : String) : List (String × α) → Option α
  | [] => none
  | (k', v) :: rest => if k' = k then some v else lookupStr k rest

/-- Go map assignment `m[k] = v` (overwrite semantics). -/
def mapSet {α : Type} (m : List (String × α)) (k : String) (v : α) : List (String × α) :=
  m.filter (fun p => p.1 ≠ k) ++ [(k, v)]

/-- Byte-wise (code-point) string order used by `slices.Sorted`. -/
def goStringLe (a b : String) : Bool :=
  charListCompare a.data b.data ≤ 0

def insertSorted (x : String) : List String → List String
  | [] => [x]
  | y :: ys => if goStringLe x y then x :: y :: ys else y :: insertSorted x ys

def sortStrings (l : List String) : List String :=
  l.foldr insertSorted []

def keysOf {α : Type} (m : List (String × α)) : List String :=
  (m.map Prod.fst).dedup

/-- `slices.Sorted(maps.Keys m)`. -/
def sortedKeys {α : Type} (m : List (String × α)) : List String :=
  sortStrings (keysOf m)

theorem insertSorted_perm (x : String) : ∀ l : List String, List.Perm (insertSorted x l) (x :: l) := by
  intro l
  induction l with
  | nil => simp [insertSorted]
  | cons y ys ih =>
    simp only [insertSorted]
    by_cases h : goStringLe x y = true
    · simp [h]
    · simp only [h, if_false]
      exact (ih.cons y).trans (List.Perm.swap x y ys)

theorem sortStrings_perm : ∀ l : List String, List.Perm (sortStrings l) l := by
  intro l
  induction l with
  | nil => simp [sortStrings]
  | cons a l ih =>
    simp only [sortStrings, List.foldr_cons]
    exact (insertSorted_perm a _).trans (ih.cons a)

theorem sortedKeys_nodup {α : Type} (m : List (String × α)) : (sortedKeys m).Nodup :=
  ((sortStrings_perm (keysOf m)).nodup_iff).mpr (List.nodup_dedup _)

theorem mem_sortedKeys {α : Type} {m : List (String × α)} {a : String} :
    a ∈ sortedKeys m ↔ a ∈ m.map Prod.fst := by
  unfold sortedKeys
  rw [List.Perm.mem_iff (sortStrings_perm (keysOf m))]
  exact List.mem_dedup

/-! ## internal/side -/

/-- ASCII upper-casing of one character. -/
def charUpper (c : Char) : Char :=
  if 'a' ≤ c ∧ c ≤ 'z' then Char.ofNat (c.toNat - 32) else c

def goToUpper (s : List Char) : List Char :=
  s.map charUpper

/-- `side.Parse`: upper-case the side string. -/
def sideParse (s : String) : String :=
  String.mk (goToUpper s.data)

/-- `Side.IncludedIn`: whether a mod side (already parsed/upper-cased)
is included for the given install side. -/
def sideIncludedIn (s : String) (installSide : String) : Bool :=
  let inst := String.mk (goToLower installSide.data)
  if s = "BOTH" ∨ s = "BOTH_JAVA9" then true
  else if s = "CLIENT" ∨ s = "CLIENT_JAVA9" then inst = "client"
  else if s = "SERVER" ∨ s = "SERVER_JAVA9" then inst = "server"
  else false

/-! ## internal/manifest and internal/config data model -/

structure ModInfo where
  Version : String
  Side : String
  deriving DecidableEq

structure DailyManifest where
  GithubMods : List (String × ModInfo)
  ExternalMods : List (String × ModInfo)

/-- `DailyManifest.AllMods`: merged map where external mods win on key
collision (Go copies GithubMods first, then overwrites with ExternalMods;
with first-match lookup, putting the external entries first gives the
same map). -/
def AllMods (m : DailyManifest) : List (String × ModInfo) :=
  m.ExternalMods ++ m.GithubMods

structure InstalledMod where
  Version : String
  Filename : String
  Side : String
  deriving DecidableEq

structure LocalState where
  Side : String
  Mode : String
  Mods : List (String × InstalledMod)

/-! ## internal/diff -/

inductive ChangeType where
  | Added
  | Removed
  | Updated
  | Unchanged
  deriving DecidableEq

structure ModChange where
  Name : String
  type : ChangeType
  OldVersion : String := ""
  NewVersion : String := ""
  Side : String
  deriving DecidableEq

structure ResolvedExtraMod where
  Version : String
  Side : String
  deriving DecidableEq

structure ComputeOptions where
  ExcludeMods : List String
  ExtraMods : List (String × ResolvedExtraMod)

/-- Body of the first loop of `diff.Compute` (manifest mods: side filter,
exclusion handling, Added/Updated/Unchanged). -/
def computeManifestChange (state : LocalState) (newMods : List (String × ModInfo))
    (excludeSet : List String) (name : String) : Option ModChange :=
  match lookupStr name newMods with
  | none => none
  | some info =>
    if ¬ sideIncludedIn (sideParse info.Side) state.Side then none
    else if name ∈ excludeSet then
      match lookupStr name state.Mods with
      | some installed =>
        some { Name := name, type := .Removed, OldVersion := installed.Version,
               Side := installed.Side }
      | none => none
    else
      match lookupStr name state.Mods with
      | none =>
        some { Name := name, type := .Added, NewVersion := info.Version, Side := info.Side }
      | some installed =>
        if installed.Version ≠ info.Version then
          some { Name := name, type := .Updated, OldVersion := installed.Version,
                 NewVersion := info.Version, Side := info.Side }
        else
          some { Name := name, type := .Unchanged, OldVersion := installed.Version,
                 NewVersion := info.Version, Side := info.Side }

/-- Body of the second loop of `diff.Compute` (installed mods absent from
the manifest and not pending extras are Removed). -/
def computeRemovedChange (state : LocalState) (newMods : List (String × ModInfo))
    (extraMods : List (String × ResolvedExtraMod)) (name : String) : Option ModChange :=
  match lookupStr name state.Mods with
  | none => none
  | some installed =>
    if (lookupStr name newMods).isSome then none
    else if (lookupStr name extraMods).isSome then none
    else
      some { Name := name, type := .Removed, OldVersion := installed.Version,
             Side := installed.Side }

/-- Body of the third loop of `diff.Compute` (resolved extras). -/
def computeExtraChange (state : LocalState) (newMods : List (String × ModInfo))
    (excludeSet : List String) (extraMods : List (String × ResolvedExtraMod))
    (name : String) : Option ModChange :=
  match lookupStr name extraMods with
  | none => none
  | some extra =>
    if (lookupStr name newMods).isSome ∧ name ∉ excludeSet then none
    else if ¬ sideIncludedIn (sideParse extra.Side) state.Side then none
    else
      match lookupStr name state.Mods with
      | none =>
        some { Name := name, type := .Added, NewVersion := extra.Version, Side := extra.Side }
      | some installed =>
        if installed.Version ≠ extra.Version then
          some { Name := name, type := .Updated, OldVersion := installed.Version,
                 NewVersion := extra.Version, Side := extra.Side }
        else
          some { Name := name, type := .Unchanged, OldVersion := installed.Version,
                 NewVersion := extra.Version, Side := extra.Side }

/-- `diff.Compute`: three loops over sorted key lists. -/
def Compute (state : LocalState) (m : DailyManifest) (opts : ComputeOptions) :
    List ModChange :=
  let newMods := AllMods m
  (sortedKeys newMods).filterMap (computeManifestChange state newMods opts.ExcludeMods)
    ++ (sortedKeys state.Mods).filterMap (computeRemovedChange state newMods opts.ExtraMods)
    ++ (sortedKeys opts.ExtraMods).filterMap
        (computeExtraChange state newMods opts.ExcludeMods opts.ExtraMods)

/-- `diff.Summary`: counts (added, removed, updated, unchanged). -/
def Summary : List ModChange → Nat × Nat × Nat × Nat
  | [] => (0, 0, 0, 0)
  | c :: rest =>
    let s := Summary rest
    match c.type with
    | .Added => (s.1 + 1, s.2.1, s.2.2.1, s.2.2.2)
    | .Removed => (s.1, s.2.1 + 1, s.2.2.1, s.2.2.2)
    | .Updated => (s.1, s.2.1, s.2.2.1 + 1, s.2.2.2)
    | .Unchanged => (s.1, s.2.1, s.2.2.1, s.2.2.2 + 1)

/-- C1: on the Scenario-1 inputs (client install side, excludes `[beta]`,
resolved extras extra-new and extra-kept), `diff.Compute` produces exactly
alpha Updated, beta Removed, gamma Unchanged, orphan Removed, extra-kept
Unchanged, extra-new Added, and nothing for the side-excluded server-only
mod. -/
theorem C1_compute_scenario :
    Compute
      { Side := "client", Mode := "daily",
        Mods := [("alpha", { Version := "1.0.0", Filename := "alpha-1.0.0.jar", Side := "BOTH" }),
                 ("beta", { Version := "1.0.0", Filename := "beta-1.0.0.jar", Side := "CLIENT" }),
                 ("gamma", { Version := "1.0.0", Filename := "gamma-1.0.0.jar", Side := "BOTH" }),
                 ("orphan", { Version := "1.0.0", Filename := "orphan-1.0.0.jar", Side := "BOTH" }),
                 ("extra-kept", { Version := "9.0.0", Filename := "extra-kept-9.0.0.jar", Side := "BOTH" })] }
      { GithubMods := [("alpha", { Version := "2.0.0", Side := "BOTH" }),
                       ("beta", { Version := "1.0.0", Side := "CLIENT" }),
                       ("gamma", { Version := "1.0.0", Side := "BOTH" }),
                       ("server-only", { Version := "1.0.0", Side := "SERVER" })],
        ExternalMods := [] }
      { ExcludeMods := ["beta"],
        ExtraMods := [("extra-new", { Version := "5.0.0", Side := "BOTH" }),
                      ("extra-kept", { Version := "9.0.0", Side := "BOTH" })] } =
    [{ Name := "alpha", type := .Updated, OldVersion := "1.0.0", NewVersion := "2.0.0",
       Side := "BOTH" },
     { Name := "beta", type := .Removed, OldVersion := "1.0.0", Side := "CLIENT" },
     { Name := "gamma", type := .Unchanged, OldVersion := "1.0.0", NewVersion := "1.0.0",
       Side := "BOTH" },
     { Name := "orphan", type := .Removed, OldVersion := "1.0.0", Side := "BOTH" },
     { Name := "extra-kept", type := .Unchanged, OldVersion := "9.0.0", NewVersion := "9.0.0",
       Side := "BOTH" },
     { Name := "extra-new", type := .Added, NewVersion := "5.0.0", Side := "BOTH" }] := by
  decide

/-! ## Claim C6: summary counts versus distinct mod names -/

theorem summary_sum (cs : List ModChange) :
    (Summary cs).1 + (Summary cs).2.1 + (Summary cs).2.2.1 + (Summary cs).2.2.2 = cs.length := by
  induction cs with
  | nil => simp [Summary]
  | cons c rest ih =>
    simp only [Summary, List.length_cons]
    cases c.type <;> simp <;> omega

theorem computeManifestChange_name {state newMods excludeSet k c}
    (h : computeManifestChange state newMods excludeSet k = some c) : c.Name = k := by
  unfold computeManifestChange at h
  repeat' split at h
  all_goals try (injection h with h2; subst h2)
  all_goals simp_all

theorem computeRemovedChange_name {state newMods extraMods k c}
    (h : computeRemovedChange state newMods extraMods k = some c) : c.Name = k := by
  unfold computeRemovedChange at h
  repeat' split at h
  all_goals try (injection h with h2; subst h2)
  all_goals simp_all

theorem computeExtraChange_name {state newMods excludeSet extraMods k c}
    (h : computeExtraChange state newMods excludeSet extraMods k = some c) : c.Name = k := by
  unfold computeExtraChange at h
  repeat' split at h
  all_goals try (injection h with h2; subst h2)
  all_goals simp_all

theorem computeManifestChange_mem {state newMods excludeSet k c}
    (h : computeManifestChange state newMods excludeSet k = some c) :
    (lookupStr k newMods).isSome := by
  unfold computeManifestChange at h
  repeat' split at h
  all_goals try (injection h with h2; subst h2)
  all_goals simp_all

theorem computeRemovedChange_mem {state newMods extraMods k c}
    (h : computeRemovedChange state newMods extraMods k = some c) :
    lookupStr k newMods = none ∧ lookupStr k extraMods = none := by
  unfold computeRemovedChange at h
  repeat' split at h
  all_goals try (injection h with h2; subst h2)
  all_goals simp_all

theorem computeExtraChange_mem {state newMods excludeSet extraMods k c}
    (h : computeExtraChange state newMods excludeSet extraMods k = some c) :
    (lookupStr k extraMods).isSome ∧ (lookupStr k newMods = none ∨ k ∈ excludeSet) := by
  unfold computeExtraChange at h
  repeat' split at h
  all_goals try (injection h with h2; subst h2)
  all_goals simp_all
  all_goals (cases hx : lookupStr k newMods <;> simp_all)

theorem filterMap_names_sublist (f : String → Option ModChange)
    (hf : ∀ k c, f k = some c → c.Name = k) :
    ∀ ks : List String, List.Sublist ((ks.filterMap f).map (fun c => c.Name)) ks := by
  intro ks
  induction ks with
  | nil => simp
  | cons k ks ih =>
    cases h : f k with
    | none => simpa [h] using ih.cons k
    | some c =>
      simp only [List.filterMap_cons, h, List.map_cons, hf k c h]
      exact ih.cons₂ k

theorem mem_filterMap_names {f : String → Option ModChange} {ks : List String} {x : String}
    (h : x ∈ (ks.filterMap f).map (fun c => c.Name)) :
    ∃ k c, f k = some c ∧ c.Name = x := by
  obtain ⟨c, hc, rfl⟩ := List.mem_map.mp h
  obtain ⟨k, _, hk⟩ := List.mem_filterMap.mp hc
  exact ⟨k, c, hk, rfl⟩

theorem compute_names_nodup (state : LocalState) (m : DailyManifest) (opts : ComputeOptions)
    (h : ∀ n, n ∈ opts.ExcludeMods → lookupStr n opts.ExtraMods = none) :
    ((Compute state m opts).map (fun c => c.Name)).Nodup := by
  unfold Compute
  simp only [List.map_append]
  have hf1 : ∀ k c, computeManifestChange state (AllMods m) opts.ExcludeMods k = some c →
      c.Name = k := fun _ _ h => computeManifestChange_name h
  have hf2 : ∀ k c, computeRemovedChange state (AllMods m) opts.ExtraMods k = some c →
      c.Name = k := fun _ _ h => computeRemovedChange_name h
  have hf3 : ∀ k c, computeExtraChange state (AllMods m) opts.ExcludeMods opts.ExtraMods k
      = some c → c.Name = k := fun _ _ h => computeExtraChange_name h
  have n1 := (filterMap_names_sublist _ hf1 (sortedKeys (AllMods m))).nodup
    (sortedKeys_nodup (AllMods m))
  have n2 := (filterMap_names_sublist _ hf2 (sortedKeys state.Mods)).nodup
    (sortedKeys_nodup state.Mods)
  have n3 := (filterMap_names_sublist _ hf3 (sortedKeys opts.ExtraMods)).nodup
    (sortedKeys_nodup opts.ExtraMods)
  have d12 : ∀ x, x ∈ ((sortedKeys (AllMods m)).filterMap
      (computeManifestChange state (AllMods m) opts.ExcludeMods)).map (fun c => c.Name) →
      x ∈ ((sortedKeys state.Mods).filterMap
      (computeRemovedChange state (AllMods m) opts.ExtraMods)).map (fun c => c.Name) → False := by
    intro x h1 h2
    obtain ⟨k1, c1, hk1, hn1⟩ := mem_filterMap_names h1
    obtain ⟨k2, c2, hk2, hn2⟩ := mem_filterMap_names h2
    have e1 := computeManifestChange_name hk1
    have e2 := computeRemovedChange_name hk2
    have : k1 = k2 := by rw [← e1, hn1, ← hn2, e2]
    subst this
    have m1 := computeManifestChange_mem hk1
    have m2 := computeRemovedChange_mem hk2
    rw [m2.1] at m1
    simp at m1
  have d13 : ∀ x, x ∈ ((sortedKeys (AllMods m)).filterMap
      (computeManifestChange state (AllMods m) opts.ExcludeMods)).map (fun c => c.Name) →
      x ∈ ((sortedKeys opts.ExtraMods).filterMap
      (computeExtraChange state (AllMods m) opts.ExcludeMods opts.ExtraMods)).map
      (fun c => c.Name) → False := by
    intro x h1 h3
    obtain ⟨k1, c1, hk1, hn1⟩ := mem_filterMap_names h1
    obtain ⟨k3, c3, hk3, hn3⟩ := mem_filterMap_names h3
    have e1 := computeManifestChange_name hk1
    have e3 := computeExtraChange_name hk3
    have : k1 = k3 := by rw [← e1, hn1, ← hn3, e3]
    subst this
    have m1 := computeManifestChange_mem hk1
    have m3 := computeExtraChange_mem hk3
    rcases m3.2 with hnone | hexcl
    · rw [hnone] at m1; simp at m1
    · have := h k1 hexcl
      rw [this] at m3
      simp at m3
  have d23 : ∀ x, x ∈ ((sortedKeys state.Mods).filterMap
      (computeRemovedChange state (AllMods m) opts.ExtraMods)).map (fun c => c.Name) →
      x ∈ ((sortedKeys opts.ExtraMods).filterMap
      (computeExtraChange state (AllMods m) opts.ExcludeMods opts.ExtraMods)).map
      (fun c => c.Name) → False := by
    intro x h2 h3
    obtain ⟨k2, c2, hk2, hn2⟩ := mem_filterMap_names h2
    obtain ⟨k3, c3, hk3, hn3⟩ := mem_filterMap_names h3
    have e2 := computeRemovedChange_name hk2
    have e3 := computeExtraChange_name hk3
    have : k2 = k3 := by rw [← e2, hn2, ← hn3, e3]
    subst this
    have m2 := computeRemovedChange_mem hk2
    have m3 := computeExtraChange_mem hk3
    rw [m2.2] at m3
    simp at m3
  rw [List.nodup_append]
  refine ⟨?_, n3, ?_⟩
  · rw [List.nodup_append]
    exact ⟨n1, n2, fun x hx hy => d12 x hx hy⟩
  · intro x hx hy
    rw [List.mem_append] at hx
    rcases hx with hx | hx
    · exact d13 x hx hy
    · exact d23 x hx hy

/-- Change list of the C6 counterexample input: the mod beta is in the
manifest, excluded, currently installed, and also a resolved extra. -/
def c6ExampleChanges : List ModChange :=
  Compute
    { Side := "client", Mode := "daily",
      Mods := [("beta", { Version := "1.0.0", Filename := "beta-1.0.0.jar",
                          Side := "CLIENT" })] }
    { GithubMods := [("beta", { Version := "1.0.0", Side := "CLIENT" })],
      ExternalMods := [] }
    { ExcludeMods := ["beta"],
      ExtraMods := [("beta", { Version := "1.0.0", Side := "CLIENT" })] }

/-- C6 counterexample: a mod that is in the manifest, excluded, currently
installed, and also listed as a resolved extra contributes two changes
(Removed from the exclusion loop and Unchanged from the extras loop), so
the four summary counts add to 2 while only one distinct mod name was
considered — the claim as stated is false on this input. -/
theorem C6_counterexample :
    c6ExampleChanges.map (fun c => c.Name) = ["beta", "beta"] ∧
    ¬ (c6ExampleChanges.map (fun c => c.Name)).Nodup ∧
    (Summary c6ExampleChanges).1 + (Summary c6ExampleChanges).2.1
      + (Summary c6ExampleChanges).2.2.1 + (Summary c6ExampleChanges).2.2.2 = 2 ∧
    ((c6ExampleChanges.map (fun c => c.Name)).dedup).length = 1 := by
  decide

/-- C6 amended: the four counts returned by `Summary` always add up to the
length of the change list; provided no mod name is simultaneously excluded
and listed as a resolved extra, the change names are pairwise distinct, so
the sum equals the number of distinct mod names considered.  (Without that
proviso a name that is in the manifest, excluded, installed and an extra
contributes two changes, see the counterexample.) -/
theorem C6_summary_counts (state : LocalState) (m : DailyManifest) (opts : ComputeOptions)
    (h : ∀ n, n ∈ opts.ExcludeMods → lookupStr n opts.ExtraMods = none) :
    (Summary (Compute state m opts)).1 + (Summary (Compute state m opts)).2.1
      + (Summary (Compute state m opts)).2.2.1 + (Summary (Compute state m opts)).2.2.2
      = (((Compute state m opts).map (fun c => c.Name)).dedup).length ∧
    ((Compute state m opts).map (fun c => c.Name)).Nodup := by
  have hnd := compute_names_nodup state m opts h
  refine ⟨?_, hnd⟩
  rw [List.dedup_eq_self.mpr hnd, List.length_map, summary_sum]

/-- C6 witness: the amended theorem applied to the Scenario-1 inputs,
where the exclude list `[beta]` shares no name with the extras. -/
theorem C6_summary_counts_witness :
    (Summary (Compute
      { Side := "client", Mode := "daily",
        Mods := [("alpha", { Version := "1.0.0", Filename := "alpha-1.0.0.jar", Side := "BOTH" }),
                 ("orphan", { Version := "1.0.0", Filename := "orphan-1.0.0.jar", Side := "BOTH" })] }
      { GithubMods := [("alpha", { Version := "2.0.0", Side := "BOTH" })], ExternalMods := [] }
      { ExcludeMods := ["beta"],
        ExtraMods := [("extra-new", { Version := "5.0.0", Side := "BOTH" })] })).1
      + (Summary (Compute
      { Side := "client", Mode := "daily",
        Mods := [("alpha", { Version := "1.0.0", Filename := "alpha-1.0.0.jar", Side := "BOTH" }),
                 ("orphan", { Version := "1.0.0", Filename := "orphan-1.0.0.jar", Side := "BOTH" })] }
      { GithubMods := [("alpha", { Version := "2.0.0", Side := "BOTH" })], ExternalMods := [] }
      { ExcludeMods := ["beta"],
        ExtraMods := [("extra-new", { Version := "5.0.0", Side := "BOTH" })] })).2.1
      + (Summary (Compute
      { Side := "client", Mode := "daily",
        Mods := [("alpha", { Version := "1.0.0", Filename := "alpha-1.0.0.jar", Side := "BOTH" }),
                 ("orphan", { Version := "1.0.0", Filename := "orphan-1.0.0.jar", Side := "BOTH" })] }
      { GithubMods := [("alpha", { Version := "2.0.0", Side := "BOTH" })], ExternalMods := [] }
      { ExcludeMods := ["beta"],
        ExtraMods := [("extra-new", { Version := "5.0.0", Side := "BOTH" })] })).2.2.1
      + (Summary (Compute
      { Side := "client", Mode := "daily",
        Mods := [("alpha", { Version := "1.0.0", Filename := "alpha-1.0.0.jar", Side := "BOTH" }),
                 ("orphan", { Version := "1.0.0", Filename := "orphan-1.0.0.jar", Side := "BOTH" })] }
      { GithubMods := [("alpha", { Version := "2.0.0", Side := "BOTH" })], ExternalMods := [] }
      { ExcludeMods := ["beta"],
        ExtraMods := [("extra-new", { Version := "5.0.0", Side := "BOTH" })] })).2.2.2
      = (((Compute
      { Side := "client", Mode := "daily",
        Mods := [("alpha", { Version := "1.0.0", Filename := "alpha-1.0.0.jar", Side := "BOTH" }),
                 ("orphan", { Version := "1.0.0", Filename := "orphan-1.0.0.jar", Side := "BOTH" })] }
      { GithubMods := [("alpha", { Version := "2.0.0", Side := "BOTH" })], ExternalMods := [] }
      { ExcludeMods := ["beta"],
        ExtraMods := [("extra-new", { Version := "5.0.0", Side := "BOTH" })] }).map
        (fun c => c.Name)).dedup).length :=
  (C6_summary_counts _ _ _ (by decide)).1

/-! ## Claim C10: lwjgl3ify client/server choice and the load migration -/

/-- Backward-compatibility migration in `config.Load`: if `side` is empty
and the legacy `mode` field held client/server, promote mode into side and
clear mode; then, if mode is empty and the legacy `manifest_track` field
is non-empty, move it into mode. Returns (side, mode). -/
def loadMigrateSideMode (side mode track : String) : String × String :=
  let lower := String.mk (goToLower mode.data)
  let p :=
    if side = "" ∧ (lower = "client" ∨ lower = "server")
    then (mode, "") else (side, mode)
  let mode2 := if p.2 = "" ∧ track ≠ "" then track else p.2
  (p.1, mode2)

/-- Variant selection inside `updateLwjgl3ifyIfNeeded`: the client update
path runs exactly when the `mode` argument equals the literal "client",
otherwise the server path runs. -/
def lwjglVariant (mode : String) : String :=
  if mode = "client" then "client" else "server"

/-- The argument `updater.Run` passes to `updateLwjgl3ifyIfNeeded` is the
state `Mode` field (not `Side`). -/
def runLwjglModeArg (st : LocalState) : String :=
  st.Mode

/-- C10: the lwjgl3ify special case picks the client path iff the state
`mode` field equals "client"; for every state produced by the legacy
migration (mode promoted into side, mode empty or daily/experimental),
the server path is chosen even when the resulting side is client. -/
theorem C10_lwjgl_mode_choice :
    (∀ st : LocalState, lwjglVariant (runLwjglModeArg st) = "client" ↔ st.Mode = "client") ∧
    (∀ mode0 track : String,
      (String.mk (goToLower mode0.data) = "client" ∨ String.mk (goToLower mode0.data) = "server") →
      (track = "" ∨ track = "daily" ∨ track = "experimental") →
      (loadMigrateSideMode "" mode0 track).1 = mode0 ∧
      lwjglVariant (loadMigrateSideMode "" mode0 track).2 = "server") := by
  constructor
  · intro st
    unfold lwjglVariant runLwjglModeArg
    by_cases h : st.Mode = "client" <;> simp [h]
  · intro mode0 track hlow htrack
    unfold loadMigrateSideMode lwjglVariant
    simp only [hlow, and_true, if_pos rfl, true_and, if_pos]
    rcases htrack with h | h | h <;> subst h <;> simp

/-- C10 witness: a migrated legacy client state (mode was "client",
manifest track "daily") ends with side "client" yet gets the server
lwjgl3ify path. -/
theorem C10_lwjgl_mode_choice_witness :
    (loadMigrateSideMode "" "client" "daily").1 = "client" ∧
    lwjglVariant (loadMigrateSideMode "" "client" "daily").2 = "server" :=
  C10_lwjgl_mode_choice.2 "client" "daily" (by decide) (by decide)

/-! ## File-system model for the state store and the downloader -/

/-- A flat file system: path to file content. -/
structure Fs where
  files : String → Option String

def fsSet (fs : Fs) (p v : String) : Fs :=
  ⟨fun q => if q = p then some v else fs.files q⟩

def fsRemove (fs : Fs) (p : String) : Fs :=
  ⟨fun q => if q = p then none else fs.files q⟩

@[simp] theorem fsSet_same (fs : Fs) (p v : String) : (fsSet fs p v).files p = some v := by
  simp [fsSet]

@[simp] theorem fsSet_other (fs : Fs) (p v q : String) (h : q ≠ p) :
    (fsSet fs p v).files q = fs.files q := by
  simp [fsSet, h]

@[simp] theorem fsRemove_same (fs : Fs) (p : String) : (fsRemove fs p).files p = none := by
  simp [fsRemove]

@[simp] theorem fsRemove_other (fs : Fs) (p q : String) (h : q ≠ p) :
    (fsRemove fs p).files q = fs.files q := by
  simp [fsRemove, h]

/-- Outcome of one `os.WriteFile`-style write: completed, or interrupted
after `k` bytes leaving a prefix of the data at the path. -/
inductive WriteOutcome where
  | ok
  | failAfter (k : Nat)
  deriving DecidableEq

/-- `LocalState.Save`: marshals the state document and writes it with a
single direct `os.WriteFile` at the fixed state path.  The Go source has
no temporary file and no rename; `doc` stands for the marshalled JSON
bytes.  Returns the file system and the error flag. -/
def saveStateFs (fs : Fs) (statePath doc : String) : WriteOutcome → Fs × Bool
  | .ok => (fsSet fs statePath doc, false)
  | .failAfter k => (fsSet fs statePath (String.mk (doc.data.take k)), true)

/-- C3 counterexample: an interrupted `Save` destroys the previous state
file and leaves a truncated document observable at the fixed path, so the
save is not atomic (no temp file + rename in the source). -/
theorem C3_counterexample :
    (saveStateFs (fsSet ⟨fun _ => none⟩ ".gtnh-daily-updater.json" "old-state")
        ".gtnh-daily-updater.json" "new-state-doc" (.failAfter 3)).2 = true ∧
    (saveStateFs (fsSet ⟨fun _ => none⟩ ".gtnh-daily-updater.json" "old-state")
        ".gtnh-daily-updater.json" "new-state-doc" (.failAfter 3)).1.files
        ".gtnh-daily-updater.json" = some "new" ∧
    ("new" ≠ "old-state" ∧ "new" ≠ "new-state-doc") := by
  refine ⟨rfl, ?_, by decide⟩
  simp [saveStateFs, fsSet]

/-- C3 amended: `Save` writes the marshalled document directly to the
fixed state path (no temporary file is ever created: no other path is
touched), succeeds exactly when the write completes, and an interrupted
write leaves a prefix of the new document at the path — overwriting the
previous state rather than preserving it. -/
theorem C3_save_direct_write (fs : Fs) (p doc : String) (o : WriteOutcome) :
    ((saveStateFs fs p doc o).1.files p =
      match o with
      | .ok => some doc
      | .failAfter k => some (String.mk (doc.data.take k))) ∧
    (∀ q, q ≠ p → (saveStateFs fs p doc o).1.files q = fs.files q) ∧
    ((saveStateFs fs p doc o).2 = false ↔ o = .ok) := by
  cases o <;>
    exact ⟨by simp [saveStateFs], fun q hq => by simp [saveStateFs, fsSet_other _ _ _ _ hq],
      by simp [saveStateFs]⟩

/-- C3 witness: the amended theorem at a concrete interrupted write. -/
theorem C3_save_direct_write_witness :
    (saveStateFs (fsSet ⟨fun _ => none⟩ "s" "old") "s" "abc" (.failAfter 1)).1.files "other"
      = none ∧
    (saveStateFs (fsSet ⟨fun _ => none⟩ "s" "old") "s" "abc" (.failAfter 1)).2 ≠ false := by
  constructor
  · rw [(C3_save_direct_write (fsSet ⟨fun _ => none⟩ "s" "old") "s" "abc" (.failAfter 1)).2.1
      "other" (by decide)]
    simp [fsSet]
  · intro hfalse
    have := ((C3_save_direct_write (fsSet ⟨fun _ => none⟩ "s" "old") "s" "abc"
      (.failAfter 1)).2.2).mp hfalse
    simp at this

/-! ## Claim C2: the update rescan of the mods directory -/

/-- `filepath.Ext`: the suffix starting at the final dot (the file names
handled here contain no path separators). -/
def goExt (s : List Char) : List Char :=
  let revTaken := s.reverse.takeWhile (· ≠ '.')
  if revTaken.length = s.length then [] else '.' :: revTaken.reverse

structure FilenameMatch where
  ModName : String
  Version : String
  Side : String
  deriving DecidableEq

/-- `pickBestMatch`: a single candidate is taken as-is; with several, the
first one whose name is in the manifest wins, else the first candidate.
`none` only for an empty candidate list (the caller skips that case). -/
def pickBestMatch (cands : List FilenameMatch)
    (manifestMods : List (String × ModInfo)) : Option FilenameMatch :=
  match cands with
  | [] => none
  | [m] => some m
  | m :: rest =>
    match (m :: rest).find? (fun x => (lookupStr x.ModName manifestMods).isSome) with
    | some x => some x
    | none => some m

/-- `scanInstalledMods`: walk the jar files, identify each through the
reverse filename index, prefer manifest-listed candidates, drop excluded
names, compute the effective side (manifest side when present, index side
otherwise) and keep the mod only when that side is included in the
`sideMode` argument. -/
def scanInstalledMods (files : List String)
    (filenameIdx : List (String × List FilenameMatch))
    (manifestMods : List (String × ModInfo)) (excludeSet : List String)
    (sideMode : String) : List (String × InstalledMod) :=
  files.foldl (fun mods fn =>
    if goExt fn.data ≠ ".jar".data then mods
    else
      match pickBestMatch ((lookupStr fn filenameIdx).getD []) manifestMods with
      | none => mods
      | some mtch =>
        if mtch.ModName ∈ excludeSet then mods
        else
          let modSide :=
            match lookupStr mtch.ModName manifestMods with
            | some mi => mi.Side
            | none => mtch.Side
          if ¬ sideIncludedIn (sideParse modSide) sideMode then mods
          else mapSet mods mtch.ModName
            { Version := mtch.Version, Filename := fn, Side := modSide }) []

/-- `refreshTrackedMods` (step 2 of update): rescan without excludes,
passing `state.Mode` as the install side (this is what the source does),
then preserve previously tracked mods whose recorded jar still exists on
disk, and replace the tracked-mod map with the result. -/
def refreshTrackedMods (state : LocalState)
    (filenameIdx : List (String × List FilenameMatch)) (m : DailyManifest)
    (files : List String) : List (String × InstalledMod) :=
  let scanned := scanInstalledMods files filenameIdx (AllMods m) [] state.Mode
  let diskJars := files.filter (fun fn => goExt fn.data = ".jar".data)
  (sortedKeys state.Mods).foldl (fun acc name =>
    match lookupStr name state.Mods with
    | none => acc
    | some installed =>
      if (lookupStr name acc).isSome then acc
      else if installed.Filename ≠ "" ∧ installed.Filename ∈ diskJars then
        mapSet acc name installed
      else acc) scanned

/-- C2: evaluation at the failing input.  With install side client and
manifest track daily, a client-side jar on disk that is not already
tracked is dropped by the update rescan, because `refreshTrackedMods`
passes `state.Mode` ("daily") — not `state.Side` ("client") — as the
install side; the same scan run with the state side (as `Init` does and
as the specification requires) keeps the mod. -/
theorem C2_refresh_drops_client_mod :
    refreshTrackedMods
      { Side := "client", Mode := "daily", Mods := [] }
      [("beta-1.0.0.jar", [{ ModName := "beta", Version := "1.0.0", Side := "CLIENT" }])]
      { GithubMods := [("beta", { Version := "1.0.0", Side := "CLIENT" })],
        ExternalMods := [] }
      ["beta-1.0.0.jar"] = [] ∧
    scanInstalledMods ["beta-1.0.0.jar"]
      [("beta-1.0.0.jar", [{ ModName := "beta", Version := "1.0.0", Side := "CLIENT" }])]
      (AllMods { GithubMods := [("beta", { Version := "1.0.0", Side := "CLIENT" })],
                 ExternalMods := [] })
      [] "client" =
      [("beta", { Version := "1.0.0", Filename := "beta-1.0.0.jar", Side := "CLIENT" })] ∧
    sideIncludedIn (sideParse "CLIENT") "daily" = false ∧
    sideIncludedIn (sideParse "CLIENT") "client" = true := by
  decide

/-! ## Claim C8: the primary-asset picker (upstream release client) -/

structure ReleaseAsset where
  Name : String
  BrowserDownloadURL : String := ""
  URL : String := ""
  deriving DecidableEq

/-- Candidate suffixes for `PickPrimaryJar`: `-<version>.jar` and, when
the version carries a leading v, `-<stripped>.jar`; all lower-cased. -/
def pickSuffixes (version : List Char) : List (List Char) :=
  let v := goTrimSpace version
  let base := [('-' :: v) ++ ".jar".data]
  let both := if v.head? = some 'v' then base ++ [('-' :: v.tail) ++ ".jar".data] else base
  both.map goToLower

/-- An asset whose (trimmed) name has extension `.jar` up to case. -/
def isJarAsset (a : ReleaseAsset) : Bool :=
  goToLower (goExt (goTrimSpace a.Name.data)) = ".jar".data

/-- Whether the lower-cased trimmed asset name ends with one of the
candidate suffixes. -/
def assetSuffixMatch (suffixes : List (List Char)) (a : ReleaseAsset) : Bool :=
  suffixes.any (fun suf => goHasSuffix (goToLower (goTrimSpace a.Name.data)) suf)

/-- The asset loop of `PickPrimaryJar`: return on the first jar asset with
a matching suffix, collecting non-matching jars; afterwards fall back to a
sole jar candidate, else nothing. -/
def pickLoop (suffixes : List (List Char)) (jars : List ReleaseAsset) :
    List ReleaseAsset → Option ReleaseAsset
  | [] =>
    match jars with
    | [j] => some j
    | _ => none
  | a :: rest =>
    if ¬ isJarAsset a then pickLoop suffixes jars rest
    else if assetSuffixMatch suffixes a then some a
    else pickLoop suffixes (jars ++ [a]) rest

/-- `github.PickPrimaryJar`. -/
def PickPrimaryJar (releaseAssets : List ReleaseAsset) (version : String) :
    Option ReleaseAsset :=
  pickLoop (pickSuffixes version.data) [] releaseAssets

/-- The behaviour the specification describes for `pick_primary_asset`:
first `.jar` asset whose lower-cased name ends with a candidate suffix;
otherwise the sole `.jar` asset if exactly one exists; otherwise nothing. -/
def pickPrimaryJarSpec (releaseAssets : List ReleaseAsset) (version : String) :
    Option ReleaseAsset :=
  let suffixes := pickSuffixes version.data
  match releaseAssets.find? (fun a => isJarAsset a && assetSuffixMatch suffixes a) with
  | some a => some a
  | none =>
    match releaseAssets.filter isJarAsset with
    | [j] => some j
    | _ => none

theorem pickLoop_spec (suffixes : List (List Char)) :
    ∀ (rest jars : List ReleaseAsset),
      pickLoop suffixes jars rest =
        match rest.find? (fun a => isJarAsset a && assetSuffixMatch suffixes a) with
        | some a => some a
        | none =>
          match jars ++ rest.filter isJarAsset with
          | [j] => some j
          | _ => none := by
  intro rest
  induction rest with
  | nil => intro jars; simp [pickLoop]
  | cons a rest ih =>
    intro jars
    by_cases hj : isJarAsset a
    · by_cases hm : assetSuffixMatch suffixes a
      · simp [pickLoop, hj, hm, List.find?_cons, List.filter_cons]
      · simp only [pickLoop, hj, hm, not_true, if_false, ite_false, if_neg]
        rw [ih (jars ++ [a])]
        simp [List.find?_cons, hj, hm, List.filter_cons, List.append_assoc]
    · simp only [pickLoop, hj, not_false_iff, if_pos]
      rw [ih jars]
      simp [List.find?_cons, hj, List.filter_cons]

/-- C8: the primary-asset picker agrees with the specified
first-suffix-match / sole-jar-fallback behaviour on every asset list and
version, and on the ambiguous Scenario-3 assets it picks `Mod-1.2.3.jar`
rather than the `-dev` classifier jar. -/
theorem C8_pick_primary_jar :
    (∀ (releaseAssets : List ReleaseAsset) (version : String),
      PickPrimaryJar releaseAssets version = pickPrimaryJarSpec releaseAssets version) ∧
    PickPrimaryJar [{ Name := "Mod-1.2.3-dev.jar" }, { Name := "Mod-1.2.3.jar" }] "1.2.3"
      = some { Name := "Mod-1.2.3.jar" } := by
  constructor
  · intro releaseAssets version
    unfold PickPrimaryJar pickPrimaryJarSpec
    rw [pickLoop_spec]
    simp
  · decide

/-! ## Claim C9: the downloader (internal/downloader) -/

/-- Outcome of the HTTP GET of one attempt (transport errors and non-200
statuses are both failures in the source). -/
inductive HttpOutcome where
  | fail
  | ok (body : String)
  deriving DecidableEq

/-- Outcome of one temp-file write sequence (create, io.Copy, close,
rename): the copy may stop after `k` bytes, the close or the rename may
fail; the source removes the temp file on every error path. -/
inductive TmpWriteOutcome where
  | ok
  | copyFail (k : Nat)
  | closeFail
  | renameFail
  deriving DecidableEq

/-- Shared shape of the three temp-file writes in the downloader
(no-cache branch of `downloadFile`, the cache write, and `copyFile`):
stream `body` to `tmpPath`, then rename onto `finalPath`; on any failure
remove the temp file and report an error. -/
def writeViaTmp (fs : Fs) (tmpPath finalPath body : String) : TmpWriteOutcome → Fs × Bool
  | .ok => (fsSet (fsRemove (fsSet fs tmpPath body) tmpPath) finalPath body, false)
  | .copyFail k =>
    (fsRemove (fsSet fs tmpPath (String.mk (body.data.take k))) tmpPath, true)
  | .closeFail => (fsRemove (fsSet fs tmpPath body) tmpPath, true)
  | .renameFail => (fsRemove (fsSet fs tmpPath body) tmpPath, true)

/-- `copyFile`: read the source file and write it to `dst` through
`dst + ".tmp"` followed by a rename. -/
def copyFileFs (fs : Fs) (src dst : String) (o : TmpWriteOutcome) : Fs × Bool :=
  match fs.files src with
  | none => (fs, true)
  | some content => writeViaTmp fs (dst ++ ".tmp") dst content o

/-- One attempt of `downloadFile`: cache hit copies the cached file to the
destination; otherwise the body is fetched and, when caching, streamed to
the cache via its temp file and then copied to the destination, else
streamed directly to the destination via its temp file. -/
def downloadFileFs (fs : Fs) (cacheEnabled : Bool) (cachePath destPath : String)
    (http : HttpOutcome) (w1 w2 : TmpWriteOutcome) : Fs × Bool :=
  if cacheEnabled ∧ (fs.files cachePath).isSome then
    copyFileFs fs cachePath destPath w2
  else
    match http with
    | .fail => (fs, true)
    | .ok body =>
      if cacheEnabled then
        let r := writeViaTmp fs (cachePath ++ ".tmp") cachePath body w1
        if r.2 then r
        else copyFileFs r.1 cachePath destPath w2
      else
        writeViaTmp fs (destPath ++ ".tmp") destPath body w1

/-- Environment of one retry attempt. -/
structure Attempt where
  http : HttpOutcome
  w1 : TmpWriteOutcome
  w2 : TmpWriteOutcome
  deriving DecidableEq

/-- `downloadFileWithRetry`: run attempts in order, stopping at the first
success; the last error is reported when all attempts fail. -/
def downloadRetryFs (fs : Fs) (cacheEnabled : Bool) (cachePath destPath : String) :
    List Attempt → Fs × Bool
  | [] => (fs, true)
  | a :: rest =>
    let r := downloadFileFs fs cacheEnabled cachePath destPath a.http a.w1 a.w2
    if r.2 = false then r
    else
      match rest with
      | [] => r
      | _ :: _ => downloadRetryFs r.1 cacheEnabled cachePath destPath rest

/-- `downloadFileWithRetry` with the fixed bound of three attempts. -/
def downloadFileWithRetryFs (fs : Fs) (cacheEnabled : Bool) (cachePath destPath : String)
    (a1 a2 a3 : Attempt) : Fs × Bool :=
  downloadRetryFs fs cacheEnabled cachePath destPath [a1, a2, a3]

/-- Outcome of the direct write in `downloadToFileOnce` (no temp file and
no rename exist in that function). -/
inductive PlainWriteOutcome where
  | ok
  | copyFail (k : Nat)
  | closeFail
  deriving DecidableEq

/-- `downloadToFileOnce`: creates the destination file directly and
streams the body into it; error paths do not remove the file. -/
def downloadToFileOnceFs (fs : Fs) (destPath : String) (http : HttpOutcome)
    (w : PlainWriteOutcome) : Fs × Bool :=
  match http with
  | .fail => (fs, true)
  | .ok body =>
    match w with
    | .ok => (fsSet fs destPath body, false)
    | .copyFail k => (fsSet fs destPath (String.mk (body.data.take k)), true)
    | .closeFail => (fsSet fs destPath body, true)

/-- C9 counterexample: a failed attempt of `downloadToFileOnce` (body
"jarbytes", copy interrupted after 3 bytes) leaves the partial file "jar"
at the destination path — the claim that a partial file is never left at
the destination is false for this part of the downloader. -/
theorem C9_counterexample :
    (downloadToFileOnceFs ⟨fun _ => none⟩ "Mod-1.0.jar" (.ok "jarbytes") (.copyFail 3)).2
      = true ∧
    (downloadToFileOnceFs ⟨fun _ => none⟩ "Mod-1.0.jar" (.ok "jarbytes") (.copyFail 3)).1.files
      "Mod-1.0.jar" = some "jar" ∧
    "jar" ≠ "jarbytes" := by
  refine ⟨rfl, ?_, by decide⟩
  simp [downloadToFileOnceFs, fsSet]

def httpBodies : HttpOutcome → List String
  | .fail => []
  | .ok b => [b]

def attemptBodies : List Attempt → List String
  | [] => []
  | a :: rest => httpBodies a.http ++ attemptBodies rest

theorem writeViaTmp_spec (fs : Fs) (tmp final body : String) (o : TmpWriteOutcome)
    (hf : final ≠ tmp) :
    ((writeViaTmp fs tmp final body o).2 = false →
      (writeViaTmp fs tmp final body o).1.files final = some body) ∧
    ((writeViaTmp fs tmp final body o).2 = true →
      (writeViaTmp fs tmp final body o).1.files final = fs.files final) ∧
    (writeViaTmp fs tmp final body o).1.files tmp = none ∧
    (∀ q, q ≠ tmp → q ≠ final → (writeViaTmp fs tmp final body o).1.files q = fs.files q) ∧
    ((writeViaTmp fs tmp final body o).2 = false ↔ o = .ok) := by
  have hf' : tmp ≠ final := fun h => hf h.symm
  cases o <;>
    refine ⟨?_, ?_, ?_, fun q hq1 hq2 => ?_, ?_⟩ <;>
    simp [writeViaTmp, fsSet, fsRemove, hf, hf', *]

theorem copyFileFs_spec (fs : Fs) (src dst : String) (o : TmpWriteOutcome)
    (h1 : dst ≠ dst ++ ".tmp") (h2 : fs.files (dst ++ ".tmp") = none) :
    ((copyFileFs fs src dst o).2 = false →
      ∃ c, fs.files src = some c ∧ (copyFileFs fs src dst o).1.files dst = some c) ∧
    ((copyFileFs fs src dst o).2 = true →
      (copyFileFs fs src dst o).1.files dst = fs.files dst) ∧
    (copyFileFs fs src dst o).1.files (dst ++ ".tmp") = none ∧
    (∀ q, q ≠ dst ++ ".tmp" → q ≠ dst → (copyFileFs fs src dst o).1.files q = fs.files q) := by
  cases hsrc : fs.files src with
  | none =>
    refine ⟨?_, ?_, ?_, ?_⟩ <;> simp [copyFileFs, hsrc, h2]
  | some content =>
    have w := writeViaTmp_spec fs (dst ++ ".tmp") dst content o h1
    refine ⟨?_, ?_, ?_, ?_⟩ <;> simp only [copyFileFs, hsrc]
    · intro hok
      exact ⟨content, rfl, w.1 hok⟩
    · exact w.2.1
    · exact w.2.2.1
    · exact fun q hq1 hq2 => w.2.2.2.1 q hq1 hq2

theorem downloadFileFs_hit {fs : Fs} {cacheEnabled : Bool} {cachePath destPath : String}
    {http : HttpOutcome} {w1 w2 : TmpWriteOutcome}
    (h : cacheEnabled = true ∧ (fs.files cachePath).isSome = true) :
    downloadFileFs fs cacheEnabled cachePath destPath http w1 w2
      = copyFileFs fs cachePath destPath w2 := by
  simp [downloadFileFs, h]

theorem downloadFileFs_miss_httpFail {fs : Fs} {cacheEnabled : Bool}
    {cachePath destPath : String} {w1 w2 : TmpWriteOutcome}
    (h : ¬ (cacheEnabled = true ∧ (fs.files cachePath).isSome = true)) :
    downloadFileFs fs cacheEnabled cachePath destPath .fail w1 w2 = (fs, true) := by
  simp only [downloadFileFs]
  rw [if_neg (by simpa using h)]

theorem downloadFileFs_nocache {fs : Fs} {cachePath destPath : String} {body : String}
    {w1 w2 : TmpWriteOutcome} :
    downloadFileFs fs false cachePath destPath (.ok body) w1 w2
      = writeViaTmp fs (destPath ++ ".tmp") destPath body w1 := by
  simp [downloadFileFs]

theorem downloadFileFs_cache_w1fail {fs : Fs} {cachePath destPath : String} {body : String}
    {w1 w2 : TmpWriteOutcome}
    (h : ¬ (fs.files cachePath).isSome = true)
    (hw1 : (writeViaTmp fs (cachePath ++ ".tmp") cachePath body w1).2 = true) :
    downloadFileFs fs true cachePath destPath (.ok body) w1 w2
      = writeViaTmp fs (cachePath ++ ".tmp") cachePath body w1 := by
  simp [downloadFileFs, h, hw1]

theorem downloadFileFs_cache_w1ok {fs : Fs} {cachePath destPath : String} {body : String}
    {w1 w2 : TmpWriteOutcome}
    (h : ¬ (fs.files cachePath).isSome = true)
    (hw1 : (writeViaTmp fs (cachePath ++ ".tmp") cachePath body w1).2 = false) :
    downloadFileFs fs true cachePath destPath (.ok body) w1 w2
      = copyFileFs (writeViaTmp fs (cachePath ++ ".tmp") cachePath body w1).1
          cachePath destPath w2 := by
  simp [downloadFileFs, h, hw1]

theorem downloadFileFs_spec (fs : Fs) (cacheEnabled : Bool) (cachePath destPath : String)
    (http : HttpOutcome) (w1 w2 : TmpWriteOutcome)
    (hdc : destPath ≠ cachePath)
    (hddt : destPath ≠ destPath ++ ".tmp")
    (hdct : destPath ≠ cachePath ++ ".tmp")
    (hcdt : cachePath ≠ destPath ++ ".tmp")
    (hcct : cachePath ≠ cachePath ++ ".tmp")
    (htt : destPath ++ ".tmp" ≠ cachePath ++ ".tmp")
    (ht1 : fs.files (destPath ++ ".tmp") = none)
    (ht2 : fs.files (cachePath ++ ".tmp") = none) :
    ((downloadFileFs fs cacheEnabled cachePath destPath http w1 w2).2 = false →
      ∃ c, (downloadFileFs fs cacheEnabled cachePath destPath http w1 w2).1.files destPath
        = some c ∧ (c ∈ httpBodies http ∨ fs.files cachePath = some c)) ∧
    ((downloadFileFs fs cacheEnabled cachePath destPath http w1 w2).2 = true →
      (downloadFileFs fs cacheEnabled cachePath destPath http w1 w2).1.files destPath
        = fs.files destPath) ∧
    (downloadFileFs fs cacheEnabled cachePath destPath http w1 w2).1.files
      (destPath ++ ".tmp") = none ∧
    (downloadFileFs fs cacheEnabled cachePath destPath http w1 w2).1.files
      (cachePath ++ ".tmp") = none ∧
    ((downloadFileFs fs cacheEnabled cachePath destPath http w1 w2).1.files cachePath
        = fs.files cachePath ∨
      ∃ b, b ∈ httpBodies http ∧
        (downloadFileFs fs cacheEnabled cachePath destPath http w1 w2).1.files cachePath
          = some b) := by
  by_cases hhit : cacheEnabled = true ∧ (fs.files cachePath).isSome = true
  · rw [downloadFileFs_hit hhit]
    have c := copyFileFs_spec fs cachePath destPath w2 hddt ht1
    refine ⟨?_, c.2.1, c.2.2.1, ?_, ?_⟩
    · intro hok
      obtain ⟨cv, hcv, hd⟩ := c.1 hok
      exact ⟨cv, hd, Or.inr hcv⟩
    · rw [c.2.2.2 (cachePath ++ ".tmp") (fun h => htt h.symm) (fun h => hdct h.symm)]
      exact ht2
    · left
      exact c.2.2.2 cachePath hcdt hdc.symm
  · cases http with
    | fail =>
      rw [downloadFileFs_miss_httpFail hhit]
      exact ⟨by simp, by intro _; rfl, ht1, ht2, Or.inl rfl⟩
    | ok body =>
      cases cacheEnabled with
      | false =>
        rw [downloadFileFs_nocache]
        have w := writeViaTmp_spec fs (destPath ++ ".tmp") destPath body w1 hddt
        refine ⟨?_, w.2.1, w.2.2.1, ?_, ?_⟩
        · intro hok
          exact ⟨body, w.1 hok, Or.inl (by simp [httpBodies])⟩
        · rw [w.2.2.2.1 (cachePath ++ ".tmp") htt.symm (fun h => hdct h.symm)]
          exact ht2
        · left
          exact w.2.2.2.1 cachePath hcdt hdc.symm
      | true =>
        have hsome : ¬ (fs.files cachePath).isSome = true := by
          intro hs; exact hhit ⟨rfl, hs⟩
        have w := writeViaTmp_spec fs (cachePath ++ ".tmp") cachePath body w1 hcct
        by_cases hw1 : (writeViaTmp fs (cachePath ++ ".tmp") cachePath body w1).2 = true
        · rw [downloadFileFs_cache_w1fail hsome hw1]
          refine ⟨?_, ?_, ?_, w.2.2.1, Or.inl (w.2.1 hw1)⟩
          · intro hok
            rw [hw1] at hok
            exact absurd hok (by simp)
          · intro _
            exact w.2.2.2.1 destPath hdct hdc
          · rw [w.2.2.2.1 (destPath ++ ".tmp") htt hcdt.symm]
            exact ht1
        · have hw1' : (writeViaTmp fs (cachePath ++ ".tmp") cachePath body w1).2 = false := by
            simpa using hw1
          rw [downloadFileFs_cache_w1ok hsome hw1']
          have hcache := w.1 hw1'
          have hdtmp : (writeViaTmp fs (cachePath ++ ".tmp") cachePath body w1).1.files
              (destPath ++ ".tmp") = none := by
            rw [w.2.2.2.1 (destPath ++ ".tmp") htt hcdt.symm]
            exact ht1
          have c := copyFileFs_spec (writeViaTmp fs (cachePath ++ ".tmp") cachePath body w1).1
            cachePath destPath w2 hddt hdtmp
          refine ⟨?_, ?_, c.2.2.1, ?_, ?_⟩
          · intro hok
            obtain ⟨cv, hcv, hd⟩ := c.1 hok
            rw [hcache] at hcv
            injection hcv with hcv
            subst hcv
            exact ⟨body, hd, Or.inl (by simp [httpBodies])⟩
          · intro hfail
            rw [c.2.1 hfail]
            exact w.2.2.2.1 destPath hdct hdc
          · rw [c.2.2.2 (cachePath ++ ".tmp") (fun h => htt h.symm) (fun h => hdct h.symm)]
            exact w.2.2.1
          · right
            refine ⟨body, by simp [httpBodies], ?_⟩
            rw [c.2.2.2 cachePath hcdt hdc.symm]
            exact hcache

theorem downloadRetryFs_cons_done {fs : Fs} {ce : Bool} {cp dp : String} {a : Attempt}
    {rest : List Attempt}
    (h : (downloadFileFs fs ce cp dp a.http a.w1 a.w2).2 = false) :
    downloadRetryFs fs ce cp dp (a :: rest) = downloadFileFs fs ce cp dp a.http a.w1 a.w2 := by
  simp [downloadRetryFs, h]

theorem downloadRetryFs_cons_last {fs : Fs} {ce : Bool} {cp dp : String} {a : Attempt}
    (h : ¬ (downloadFileFs fs ce cp dp a.http a.w1 a.w2).2 = false) :
    downloadRetryFs fs ce cp dp [a] = downloadFileFs fs ce cp dp a.http a.w1 a.w2 := by
  simp [downloadRetryFs, h]

theorem downloadRetryFs_cons_retry {fs : Fs} {ce : Bool} {cp dp : String} {a b : Attempt}
    {rest : List Attempt}
    (h : ¬ (downloadFileFs fs ce cp dp a.http a.w1 a.w2).2 = false) :
    downloadRetryFs fs ce cp dp (a :: b :: rest)
      = downloadRetryFs (downloadFileFs fs ce cp dp a.http a.w1 a.w2).1 ce cp dp (b :: rest) := by
  simp [downloadRetryFs, h]

theorem downloadRetryFs_spec (cacheEnabled : Bool) (cachePath destPath : String)
    (hdc : destPath ≠ cachePath)
    (hddt : destPath ≠ destPath ++ ".tmp")
    (hdct : destPath ≠ cachePath ++ ".tmp")
    (hcdt : cachePath ≠ destPath ++ ".tmp")
    (hcct : cachePath ≠ cachePath ++ ".tmp")
    (htt : destPath ++ ".tmp" ≠ cachePath ++ ".tmp") :
    ∀ (attempts : List Attempt) (fs : Fs),
      fs.files (destPath ++ ".tmp") = none →
      fs.files (cachePath ++ ".tmp") = none →
      ((downloadRetryFs fs cacheEnabled cachePath destPath attempts).2 = false →
        ∃ c, (downloadRetryFs fs cacheEnabled cachePath destPath attempts).1.files destPath
          = some c ∧ (c ∈ attemptBodies attempts ∨ fs.files cachePath = some c)) ∧
      ((downloadRetryFs fs cacheEnabled cachePath destPath attempts).2 = true →
        (downloadRetryFs fs cacheEnabled cachePath destPath attempts).1.files destPath
          = fs.files destPath) ∧
      (downloadRetryFs fs cacheEnabled cachePath destPath attempts).1.files
        (destPath ++ ".tmp") = none ∧
      (downloadRetryFs fs cacheEnabled cachePath destPath attempts).1.files
        (cachePath ++ ".tmp") = none ∧
      ((downloadRetryFs fs cacheEnabled cachePath destPath attempts).1.files cachePath
          = fs.files cachePath ∨
        ∃ b, b ∈ attemptBodies attempts ∧
          (downloadRetryFs fs cacheEnabled cachePath destPath attempts).1.files cachePath
            = some b) := by
  intro attempts
  induction attempts with
  | nil =>
    intro fs h1 h2
    refine ⟨?_, ?_, h1, h2, Or.inl rfl⟩
    · intro h; simp [downloadRetryFs] at h
    · intro _; rfl
  | cons a rest ih =>
    intro fs h1 h2
    have S := downloadFileFs_spec fs cacheEnabled cachePath destPath a.http a.w1 a.w2
      hdc hddt hdct hcdt hcct htt h1 h2
    by_cases hr : (downloadFileFs fs cacheEnabled cachePath destPath a.http a.w1 a.w2).2 = false
    · rw [downloadRetryFs_cons_done hr]
      refine ⟨?_, ?_, S.2.2.1, S.2.2.2.1, ?_⟩
      · intro _
        obtain ⟨c, hdv, hc⟩ := S.1 hr
        refine ⟨c, hdv, ?_⟩
        rcases hc with hc | hc
        · exact Or.inl (by simp [attemptBodies, hc])
        · exact Or.inr hc
      · intro hcontr
        rw [hr] at hcontr
        exact absurd hcontr (by simp)
      · rcases S.2.2.2.2 with hc | ⟨b, hb, hcb⟩
        · exact Or.inl hc
        · exact Or.inr ⟨b, by simp [attemptBodies, hb], hcb⟩
    · cases rest with
      | nil =>
        rw [downloadRetryFs_cons_last hr]
        have hr' : (downloadFileFs fs cacheEnabled cachePath destPath a.http a.w1 a.w2).2
            = true := by simpa using hr
        refine ⟨?_, fun _ => S.2.1 hr', S.2.2.1, S.2.2.2.1, ?_⟩
        · intro hcontr
          exact absurd hcontr hr
        · rcases S.2.2.2.2 with hc | ⟨b, hb, hcb⟩
          · exact Or.inl hc
          · exact Or.inr ⟨b, by simp [attemptBodies, hb], hcb⟩
      | cons b rest' =>
        rw [downloadRetryFs_cons_retry hr]
        have hr' : (downloadFileFs fs cacheEnabled cachePath destPath a.http a.w1 a.w2).2
            = true := by simpa using hr
        have IH := ih (downloadFileFs fs cacheEnabled cachePath destPath a.http a.w1 a.w2).1
          S.2.2.1 S.2.2.2.1
        refine ⟨?_, ?_, IH.2.2.1, IH.2.2.2.1, ?_⟩
        · intro hok
          obtain ⟨c, hdv, hc⟩ := IH.1 hok
          refine ⟨c, hdv, ?_⟩
          rcases hc with hc | hc
          · exact Or.inl (by simp [attemptBodies]; right; simpa [attemptBodies] using hc)
          · rcases S.2.2.2.2 with hcc | ⟨bb, hbb, hcb⟩
            · rw [hcc] at hc
              exact Or.inr hc
            · rw [hcb] at hc
              injection hc with hc
              subst hc
              exact Or.inl (by simp [attemptBodies, hbb])
        · intro hfail
          rw [IH.2.1 hfail]
          exact S.2.1 hr'
        · rcases IH.2.2.2.2 with hc | ⟨b2, hb2, hcb2⟩
          · rcases S.2.2.2.2 with hcc | ⟨bb, hbb, hcb⟩
            · exact Or.inl (by rw [hc, hcc])
            · exact Or.inr ⟨bb, by simp [attemptBodies, hbb], by rw [hc, hcb]⟩
          · exact Or.inr ⟨b2, by simp [attemptBodies]; right; simpa [attemptBodies] using hb2,
              hcb2⟩

/-- C9 amended: the per-job downloader (`downloadFile` under
`downloadFileWithRetry`, three attempts) is atomic: when the job is
reported successful the destination holds a complete content — a full
response body of one of the attempts, or the previously cached file —
never a partial write; when the job fails the destination is exactly as
before; and no `.tmp` file of the job remains in either case.  (The
separate single-file helper `DownloadToFile` writes directly to its
destination and does not enjoy this property, see the counterexample.) -/
theorem C9_download_job_atomic (cacheEnabled : Bool) (cachePath destPath : String)
    (a1 a2 a3 : Attempt) (fs : Fs)
    (hdc : destPath ≠ cachePath)
    (hddt : destPath ≠ destPath ++ ".tmp")
    (hdct : destPath ≠ cachePath ++ ".tmp")
    (hcdt : cachePath ≠ destPath ++ ".tmp")
    (hcct : cachePath ≠ cachePath ++ ".tmp")
    (htt : destPath ++ ".tmp" ≠ cachePath ++ ".tmp")
    (h1 : fs.files (destPath ++ ".tmp") = none)
    (h2 : fs.files (cachePath ++ ".tmp") = none) :
    ((downloadFileWithRetryFs fs cacheEnabled cachePath destPath a1 a2 a3).2 = false →
      ∃ c, (downloadFileWithRetryFs fs cacheEnabled cachePath destPath a1 a2 a3).1.files
        destPath = some c ∧
        (c ∈ attemptBodies [a1, a2, a3] ∨ fs.files cachePath = some c)) ∧
    ((downloadFileWithRetryFs fs cacheEnabled cachePath destPath a1 a2 a3).2 = true →
      (downloadFileWithRetryFs fs cacheEnabled cachePath destPath a1 a2 a3).1.files destPath
        = fs.files destPath) ∧
    (downloadFileWithRetryFs fs cacheEnabled cachePath destPath a1 a2 a3).1.files
      (destPath ++ ".tmp") = none ∧
    (downloadFileWithRetryFs fs cacheEnabled cachePath destPath a1 a2 a3).1.files
      (cachePath ++ ".tmp") = none ∧
    ((downloadFileWithRetryFs fs cacheEnabled cachePath destPath a1 a2 a3).1.files cachePath
        = fs.files cachePath ∨
      ∃ b, b ∈ attemptBodies [a1, a2, a3] ∧
        (downloadFileWithRetryFs fs cacheEnabled cachePath destPath a1 a2 a3).1.files
          cachePath = some b) := by
  have T := downloadRetryFs_spec cacheEnabled cachePath destPath
    hdc hddt hdct hcdt hcct htt [a1, a2, a3] fs h1 h2
  unfold downloadFileWithRetryFs
  exact T

/-- C9 witness: a job whose first attempt fails on the network, whose
second attempt is interrupted while copying, and whose third attempt
succeeds, run on an empty file system with caching disabled: the job
succeeds, the destination holds a complete attempt body, and no temp
file remains. -/
theorem C9_download_job_atomic_witness :
    (downloadFileWithRetryFs ⟨fun _ => none⟩ false "cache-x.jar" "mods-x.jar"
      { http := .fail, w1 := .ok, w2 := .ok }
      { http := .ok "bytes", w1 := .copyFail 1, w2 := .ok }
      { http := .ok "morebytes", w1 := .ok, w2 := .ok }).1.files ("mods-x.jar" ++ ".tmp")
      = none ∧
    ∃ c, (downloadFileWithRetryFs ⟨fun _ => none⟩ false "cache-x.jar" "mods-x.jar"
      { http := .fail, w1 := .ok, w2 := .ok }
      { http := .ok "bytes", w1 := .copyFail 1, w2 := .ok }
      { http := .ok "morebytes", w1 := .ok, w2 := .ok }).1.files "mods-x.jar" = some c ∧
      (c ∈ attemptBodies [{ http := .fail, w1 := .ok, w2 := .ok },
        { http := .ok "bytes", w1 := .copyFail 1, w2 := .ok },
        { http := .ok "morebytes", w1 := .ok, w2 := .ok }] ∨
       (Fs.mk (fun _ => none)).files "cache-x.jar" = some c) := by
  have T := C9_download_job_atomic false "cache-x.jar" "mods-x.jar"
    { http := .fail, w1 := .ok, w2 := .ok }
    { http := .ok "bytes", w1 := .copyFail 1, w2 := .ok }
    { http := .ok "morebytes", w1 := .ok, w2 := .ok }
    ⟨fun _ => none⟩ (by decide) (by decide) (by decide) (by decide) (by decide) (by decide)
    rfl rfl
  exact ⟨T.2.2.1, T.1 (by decide)⟩

/-! ## Claim C4: the INI-style (.cfg) merger -/

/-- `strings.Split` at newlines. -/
def splitOnNewline : List Char → List (List Char)
  | [] => [[]]
  | c :: rest =>
    if c = '\n' then [] :: splitOnNewline rest
    else
      match splitOnNewline rest with
      | [] => [[c]]
      | g :: gs => (c :: g) :: gs

/-- `bufio.Scanner` over a string: one token per line, the final newline
producing no empty trailing token (carriage returns are not modelled; the
config data handled here uses bare newlines). -/
def goScanLines (s : List Char) : List (List Char) :=
  match s with
  | [] => []
  | _ =>
    let parts := splitOnNewline s
    if goHasSuffix s ['\n'] then parts.dropLast else parts

/-- `strings.Trim(s, "\"")`. -/
def trimQuotes (l : List Char) : List Char :=
  ((l.dropWhile (· = '"')).reverse.dropWhile (· = '"')).reverse

structure CfgEntry where
  Comments : List String
  Key : String
  Value : String
  deriving DecidableEq

structure CfgCategory where
  Comments : List String
  Name : String
  Entries : List CfgEntry
  deriving DecidableEq

structure CfgFile where
  Preamble : List String
  Categories : List CfgCategory
  deriving DecidableEq

/-- Running state of the `ParseCfg` line scanner. -/
structure CfgParseState where
  preamble : List String
  done : List CfgCategory
  cur : Option CfgCategory
  pending : List String
  depth : Nat

/-- One line of the `ParseCfg` scanner loop. -/
def cfgStep (st : CfgParseState) (line : List Char) : CfgParseState :=
  let trimmed := goTrimSpace line
  match st.cur with
  | none =>
    if trimmed.isEmpty ∨ trimmed.head? = some '#' then
      if st.depth = 0 then { st with pending := st.pending ++ [String.mk line] } else st
    else if goHasSuffix trimmed ['\x7b'] then
      let name := String.mk (trimQuotes (goTrimSpace trimmed.dropLast))
      if st.depth = 0 then
        { st with cur := some { Comments := st.pending, Name := name, Entries := [] },
                  pending := [], depth := st.depth + 1 }
      else { st with pending := [], depth := st.depth + 1 }
    else
      { st with preamble := st.preamble ++ st.pending ++ [String.mk line], pending := [] }
  | some cat =>
    if trimmed = ['\x7d'] then
      if st.depth - 1 = 0 then
        { st with done := st.done ++ [cat], cur := none, depth := st.depth - 1 }
      else { st with depth := st.depth - 1 }
    else if goHasSuffix trimmed ['\x7b'] then
      { st with depth := st.depth + 1 }
    else if trimmed.isEmpty ∨ trimmed.head? = some '#' then
      { st with pending := st.pending ++ [String.mk line] }
    else
      match trimmed.findIdx? (· = '=') with
      | some eqIdx =>
        { st with
            cur := some { cat with Entries := cat.Entries
              ++ [{ Comments := st.pending, Key := String.mk (trimmed.take eqIdx),
                    Value := String.mk (trimmed.drop (eqIdx + 1)) }] },
            pending := [] }
      | none => { st with pending := st.pending ++ [String.mk line] }

/-- `ParseCfg` (the scanner never fails on in-memory strings, so the
error return is not modelled).  A category still open at end of input is
already part of the category list, as in the source. -/
def ParseCfg (content : String) : CfgFile :=
  let fin := (goScanLines content.data).foldl cfgStep
    { preamble := [], done := [], cur := none, pending := [], depth := 0 }
  { Preamble := fin.preamble,
    Categories := fin.done ++ (match fin.cur with | some c => [c] | none => []) }

/-- `CfgFile.ToMap`: flat `category.key → value` map (later entries
overwrite earlier ones, as in a Go map). -/
def cfgToMap (cfg : CfgFile) : List (String × String) :=
  cfg.Categories.foldl
    (fun m cat => cat.Entries.foldl
      (fun m' e => mapSet m' (cat.Name ++ "." ++ e.Key) e.Value) m) []

/-- Per-entry decision of `MergeCfg` on the new-pack skeleton: keys new in
the pack or deleted by the user keep the pack value (no conflict); a key
the user changed takes the user value, with a conflict recorded when the
pack changed it differently. -/
def mergeCfgEntry (baseMap theirsMap oursMap : List (String × String)) (catName : String)
    (e : CfgEntry) : CfgEntry × List String :=
  let fullKey := catName ++ "." ++ e.Key
  match lookupStr fullKey baseMap with
  | none => (e, [])
  | some baseVal =>
    match lookupStr fullKey oursMap with
    | none => (e, [])
    | some oursVal =>
      let theirsVal := (lookupStr fullKey theirsMap).getD ""
      if oursVal ≠ baseVal ∧ theirsVal ≠ baseVal ∧ oursVal ≠ theirsVal then
        ({ e with Value := oursVal },
         ["conflict: " ++ fullKey ++ " (user: " ++ oursVal ++ ", pack: " ++ theirsVal ++ ")"])
      else if oursVal ≠ baseVal then ({ e with Value := oursVal }, [])
      else (e, [])

def mergeCfgCategory (baseMap theirsMap oursMap : List (String × String))
    (cat : CfgCategory) : CfgCategory × List String :=
  let merged := cat.Entries.map (mergeCfgEntry baseMap theirsMap oursMap cat.Name)
  ({ cat with Entries := merged.map Prod.fst }, (merged.map Prod.snd).flatten)

/-- Insertion sort of categories by name (`sort.Slice` with a
`Name <` comparator). -/
def insertCfgCat (c : CfgCategory) : List CfgCategory → List CfgCategory
  | [] => [c]
  | d :: ds =>
    if charListCompare c.Name.data d.Name.data < 0 then c :: d :: ds
    else d :: insertCfgCat c ds

def sortCfgCategories (cats : List CfgCategory) : List CfgCategory :=
  cats.foldr insertCfgCat []

/-- `writeCfg`: preamble, then categories sorted by name; each category
prints its comments, `name {`, its entries (comments, then
`    key=value`), and a closing brace followed by a blank line. -/
def writeCfg (cfg : CfgFile) : String :=
  let pre := cfg.Preamble.foldl (fun acc l => acc ++ l ++ "\n") ""
  (sortCfgCategories cfg.Categories).foldl (fun acc cat =>
    let cmts := cat.Comments.foldl (fun a l => a ++ l ++ "\n") ""
    let entries := cat.Entries.foldl (fun a e =>
      a ++ (e.Comments.foldl (fun b l => b ++ l ++ "\n") "")
        ++ "    " ++ e.Key ++ "=" ++ e.Value ++ "\n") ""
    acc ++ cmts ++ cat.Name ++ " \x7b\n" ++ entries ++ "\x7d\n\n") pre

/-- `MergeCfg`: three-way merge of Forge .cfg content on the new-pack
structure (the in-memory parser cannot fail, so the text-merge fallback
branch is unreachable here). -/
def MergeCfg (base theirs ours : String) : String × List String :=
  let baseMap := cfgToMap (ParseCfg base)
  let theirsCfg := ParseCfg theirs
  let theirsMap := cfgToMap theirsCfg
  let oursMap := cfgToMap (ParseCfg ours)
  let mergedCats := theirsCfg.Categories.map (mergeCfgCategory baseMap theirsMap oursMap)
  (writeCfg { Preamble := theirsCfg.Preamble, Categories := mergedCats.map Prod.fst },
   (mergedCats.map Prod.snd).flatten)

/-- C4 counterexample: the user deletes entry `S:key` (present in base
and kept unchanged by the pack); `MergeCfg` silently restores the pack
entry — the merged output contains `S:key=1`, which the user had deleted,
while the returned conflict list is empty.  The claim that a user edit is
never overridden without a conflict descriptor is therefore false for the
INI-style merger. -/
theorem C4_counterexample :
    (MergeCfg "general \x7b\n    S:key=1\n\x7d\n" "general \x7b\n    S:key=1\n\x7d\n"
        "general \x7b\n\x7d\n").2 = [] ∧
    (MergeCfg "general \x7b\n    S:key=1\n\x7d\n" "general \x7b\n    S:key=1\n\x7d\n"
        "general \x7b\n\x7d\n").1 = "general \x7b\n    S:key=1\n\x7d\n\n" ∧
    lookupStr "general.S:key"
      (cfgToMap (ParseCfg "general \x7b\n    S:key=1\n\x7d\n")) = some "1" ∧
    lookupStr "general.S:key" (cfgToMap (ParseCfg "general \x7b\n\x7d\n")) = none := by
  decide

/-- Every branch of the per-entry merge keeps the key of the pack
skeleton entry. -/
theorem mergeCfgEntry_key (baseMap theirsMap oursMap : List (String × String))
    (catName : String) (e : CfgEntry) :
    (mergeCfgEntry baseMap theirsMap oursMap catName e).1.Key = e.Key := by
  simp only [mergeCfgEntry]
  repeat' split
  all_goals simp

theorem mergeCfg_keys_preserved (baseMap theirsMap oursMap : List (String × String))
    (catName : String) :
    ∀ es : List CfgEntry,
      ((es.map (mergeCfgEntry baseMap theirsMap oursMap catName)).map Prod.fst).map
        (fun e => e.Key) = es.map (fun e => e.Key) := by
  intro es
  induction es with
  | nil => rfl
  | cons e es ih =>
    simp only [List.map_cons, mergeCfgEntry_key, ih]

/-- C4 amended: the conflict policy does not hold for the INI-style
(.cfg) merger.  The merged .cfg output is built from the new-pack
skeleton alone — each merged category keeps exactly the pack category
name and entry keys — so entries the user added, and user edits to
entries the pack removed, are silently dropped; an entry the user
deleted (key present in base) is restored with the pack value and no
conflict; and an entry whose key is absent from base keeps the pack
value with no conflict even when the user holds a different value for
it (both-added case).  User edits survive only for entries present in
base, the new-pack skeleton, and the user file: there the user value
wins, and when the pack changed the same entry to yet another value a
conflict descriptor is emitted. -/
theorem C4_cfg_merge_entry :
    (∀ (baseMap theirsMap oursMap : List (String × String)) (catName : String)
        (e : CfgEntry) (bv ov : String),
      lookupStr (catName ++ "." ++ e.Key) baseMap = some bv →
      lookupStr (catName ++ "." ++ e.Key) oursMap = some ov → ov ≠ bv →
      (mergeCfgEntry baseMap theirsMap oursMap catName e).1.Value = ov ∧
      ((lookupStr (catName ++ "." ++ e.Key) theirsMap).getD "" ≠ bv →
        ov ≠ (lookupStr (catName ++ "." ++ e.Key) theirsMap).getD "" →
        (mergeCfgEntry baseMap theirsMap oursMap catName e).2 ≠ [])) ∧
    (∀ (baseMap theirsMap oursMap : List (String × String)) (catName : String)
        (e : CfgEntry) (bv : String),
      lookupStr (catName ++ "." ++ e.Key) baseMap = some bv →
      lookupStr (catName ++ "." ++ e.Key) oursMap = none →
      mergeCfgEntry baseMap theirsMap oursMap catName e = (e, [])) ∧
    (∀ (baseMap theirsMap oursMap : List (String × String)) (catName : String)
        (e : CfgEntry),
      lookupStr (catName ++ "." ++ e.Key) baseMap = none →
      mergeCfgEntry baseMap theirsMap oursMap catName e = (e, [])) ∧
    (∀ (baseMap theirsMap oursMap : List (String × String)) (cat : CfgCategory),
      (mergeCfgCategory baseMap theirsMap oursMap cat).1.Name = cat.Name ∧
      (mergeCfgCategory baseMap theirsMap oursMap cat).1.Entries.map (fun e => e.Key)
        = cat.Entries.map (fun e => e.Key)) := by
  refine ⟨?_, ?_, ?_, ?_⟩
  · intro baseMap theirsMap oursMap catName e bv ov hb ho hchanged
    simp only [mergeCfgEntry, hb, ho]
    by_cases hp : (lookupStr (catName ++ "." ++ e.Key) theirsMap).getD "" ≠ bv
        ∧ ov ≠ (lookupStr (catName ++ "." ++ e.Key) theirsMap).getD ""
    · rw [if_pos ⟨hchanged, hp.1, hp.2⟩]
      exact ⟨by simp, fun _ _ => by simp⟩
    · rw [if_neg (by tauto), if_pos hchanged]
      exact ⟨by simp, fun h1 h2 => absurd ⟨h1, h2⟩ hp⟩
  · intro baseMap theirsMap oursMap catName e bv hb ho
    simp [mergeCfgEntry, hb, ho]
  · intro baseMap theirsMap oursMap catName e hb
    simp [mergeCfgEntry, hb]
  · intro baseMap theirsMap oursMap cat
    exact ⟨rfl, mergeCfg_keys_preserved baseMap theirsMap oursMap cat.Name cat.Entries⟩

/-- C4 witness: the amended theorem at concrete entries — base, pack and
user all differ, so the user value 3 wins with a conflict; a key absent
from base that the user and the pack add with different values keeps the
pack value with no conflict; and a merged category keeps the pack keys. -/
theorem C4_cfg_merge_entry_witness :
    (mergeCfgEntry [("general.S:key", "1")] [("general.S:key", "2")] [("general.S:key", "3")]
      "general" { Comments := [], Key := "S:key", Value := "2" }).1.Value = "3" ∧
    (mergeCfgEntry [("general.S:key", "1")] [("general.S:key", "2")] [("general.S:key", "3")]
      "general" { Comments := [], Key := "S:key", Value := "2" }).2 ≠ [] ∧
    mergeCfgEntry [] [("general.S:new", "2")] [("general.S:new", "9")]
      "general" { Comments := [], Key := "S:new", Value := "2" }
      = ({ Comments := [], Key := "S:new", Value := "2" }, []) ∧
    (mergeCfgCategory [] [] [("general.S:mine", "7")]
      { Comments := [], Name := "general",
        Entries := [{ Comments := [], Key := "S:kept", Value := "5" }] }).1.Entries.map
      (fun e => e.Key) = ["S:kept"] := by
  have T1 := C4_cfg_merge_entry.1 [("general.S:key", "1")] [("general.S:key", "2")]
    [("general.S:key", "3")] "general" { Comments := [], Key := "S:key", Value := "2" }
    "1" "3" (by decide) (by decide) (by decide)
  have T3 := C4_cfg_merge_entry.2.2.1 [] [("general.S:new", "2")] [("general.S:new", "9")]
    "general" { Comments := [], Key := "S:new", Value := "2" } (by decide)
  have T4 := (C4_cfg_merge_entry.2.2.2 [] [] [("general.S:mine", "7")]
    { Comments := [], Name := "general",
      Entries := [{ Comments := [], Key := "S:kept", Value := "5" }] }).2
  exact ⟨T1.1, T1.2 (by decide) (by decide), T3, T4⟩

/-! ## Claim C5: the JSON structural merger

Go unmarshals JSON into `interface\x7b\x7d` values; they are modelled by the
`Json` inductive (numbers as integers — the documents involved carry
integer values, on which float64 equality coincides with integer
equality).  `reflect.DeepEqual` is modelled by the structural equality
test `Json.beq`.  Go map iteration order is arbitrary; the embedding
iterates the key union in sorted order, which fixes one admissible order
for the resulting field lists and conflict messages. -/

inductive Json where
  | null : Json
  | bool (b : Bool) : Json
  | num (n : Int) : Json
  | str (s : String) : Json
  | arr (elems : List Json) : Json
  | obj (fields : List (String × Json)) : Json

mutual

/-- `reflect.DeepEqual` on unmarshalled JSON values. -/
def Json.beq : Json → Json → Bool
  | .null, .null => true
  | .bool a, .bool b => a == b
  | .num a, .num b => a == b
  | .str a, .str b => a == b
  | .arr xs, .arr ys => Json.beqList xs ys
  | .obj xs, .obj ys => Json.beqFields xs ys
  | _, _ => false

def Json.beqList : List Json → List Json → Bool
  | [], [] => true
  | x :: xs, y :: ys => Json.beq x y && Json.beqList xs ys
  | _, _ => false

def Json.beqFields : List (String × Json) → List (String × Json) → Bool
  | [], [] => true
  | (k1, v1) :: xs, (k2, v2) :: ys => k1 == k2 && Json.beq v1 v2 && Json.beqFields xs ys
  | _, _ => false

end

/-- Go map indexing `m[k]` on an object field list. -/
def jsonLookup (k : String) : List (String × Json) → Option Json
  | [] => none
  | (k', v) :: rest => if k' = k then some v else jsonLookup k rest

theorem jsonLookup_size {k : String} :
    ∀ {l : List (String × Json)} {v : Json}, jsonLookup k l = some v → sizeOf v < sizeOf l := by
  intro l
  induction l with
  | nil => intro v h; simp [jsonLookup] at h
  | cons p rest ih =>
    intro v h
    obtain ⟨k', v'⟩ := p
    simp only [jsonLookup] at h
    by_cases hk : k' = k
    · rw [if_pos hk] at h
      injection h with h
      subst h
      simp
      omega
    · rw [if_neg hk] at h
      have := ih h
      simp
      omega

/-- The key union over which `mergeObjects` iterates (`allKeys`), in
sorted order. -/
def allKeysSorted (b t o : List (String × Json)) : List String :=
  sortStrings ((b.map Prod.fst ++ t.map Prod.fst ++ o.map Prod.fst).dedup)

mutual

/-- `mergeValue`: three maps merge recursively; anything else follows the
scalar three-way rule (user wins on a two-sided change, with a conflict
when the pack changed to yet another value). -/
def mergeValue (path : String) (base theirs ours : Json) : Json × List String :=
  match base, theirs, ours with
  | .obj b, .obj t, .obj o =>
    let r := mergeKeys path b t o (allKeysSorted b t o)
    (.obj r.1, r.2)
  | b, t, o =>
    if !(Json.beq b o) && !(Json.beq b t) && !(Json.beq t o) then
      (o, ["conflict at " ++ path ++ ": user and pack both changed"])
    else if !(Json.beq b o) then (o, [])
    else (t, [])
termination_by (sizeOf theirs, 0)

/-- The per-key switch of `mergeObjects`: the contribution of key `k` to
the merged object (`none` when the key is dropped) with its conflicts. -/
def mergeKeyEntry (path : String) (b t o : List (String × Json)) (k : String) :
    Option (Json × List String) :=
  let keyPath := if path = "" then k else path ++ "." ++ k
  match hb : jsonLookup k b, ht : jsonLookup k t, ho : jsonLookup k o with
  | some bv, some tv, some ov => some (mergeValue keyPath bv tv ov)
  | none, some tv, none => some (tv, [])
  | none, none, some ov => some (ov, [])
  | none, some tv, some ov => some (mergeValue keyPath .null tv ov)
  | some bv, none, some ov =>
    if !(Json.beq bv ov) then some (ov, []) else none
  | some bv, some tv, none =>
    if !(Json.beq bv tv) then
      some (tv, ["conflict at " ++ keyPath ++ ": user removed but pack changed"])
    else none
  | some _, none, none => none
  | none, none, none => none
termination_by (sizeOf t, 0)
decreasing_by
  all_goals first
    | decreasing_tactic
    | (simp_wf; apply Prod.Lex.left; exact jsonLookup_size ht)

/-- The iteration of `mergeObjects` over the sorted key union. -/
def mergeKeys (path : String) (b t o : List (String × Json)) :
    List String → List (String × Json) × List String
  | [] => ([], [])
  | k :: ks =>
    let rest := mergeKeys path b t o ks
    match mergeKeyEntry path b t o k with
    | some vc => ((k, vc.1) :: rest.1, vc.2 ++ rest.2)
    | none => rest
termination_by ks => (sizeOf t, ks.length + 1)

end

/-- `mergeObjects` at the document root (`MergeJSON` calls
`mergeValue("", …)`, whose object case iterates the key union). -/
def mergeObjects (b t o : List (String × Json)) : List (String × Json) × List String :=
  mergeKeys "" b t o (allKeysSorted b t o)

/-- `MergeJSON` on three already-parsed documents (the claim concerns
parseable inputs; the parse-failure fallback to the text merger is out of
scope here). -/
def MergeJSONValues (base theirs ours : Json) : Json × List String :=
  mergeValue "" base theirs ours

theorem jsonLookup_mem_keys {k : String} :
    ∀ {l : List (String × Json)} {v : Json}, jsonLookup k l = some v → k ∈ l.map Prod.fst := by
  intro l
  induction l with
  | nil => intro v h; simp [jsonLookup] at h
  | cons p rest ih =>
    intro v h
    obtain ⟨k', v'⟩ := p
    simp only [jsonLookup] at h
    by_cases hk : k' = k
    · simp [hk]
    · rw [if_neg hk] at h
      simp [ih h]

theorem allKeysSorted_nodup (b t o : List (String × Json)) : (allKeysSorted b t o).Nodup :=
  ((sortStrings_perm _).nodup_iff).mpr (List.nodup_dedup _)

theorem mem_allKeysSorted {b t o : List (String × Json)} {k : String} :
    k ∈ allKeysSorted b t o ↔
      k ∈ b.map Prod.fst ++ t.map Prod.fst ++ o.map Prod.fst := by
  unfold allKeysSorted
  rw [List.Perm.mem_iff (sortStrings_perm _)]
  exact List.mem_dedup

theorem mergeKeys_cons (path : String) (b t o : List (String × Json)) (k : String)
    (ks : List String) :
    mergeKeys path b t o (k :: ks) =
      match mergeKeyEntry path b t o k with
      | some vc => ((k, vc.1) :: (mergeKeys path b t o ks).1,
                    vc.2 ++ (mergeKeys path b t o ks).2)
      | none => mergeKeys path b t o ks := by
  rw [mergeKeys.eq_def]

theorem mergeKeys_lookup_cons_ne (path : String) (b t o : List (String × Json))
    (k' k : String) (ks : List String) (hne : k' ≠ k) :
    jsonLookup k (mergeKeys path b t o (k' :: ks)).1
      = jsonLookup k (mergeKeys path b t o ks).1 := by
  rw [mergeKeys_cons]
  cases mergeKeyEntry path b t o k' with
  | none => rfl
  | some vc => simp [jsonLookup, hne]

theorem mergeKeys_conflicts_cons_sub (path : String) (b t o : List (String × Json))
    (k' : String) (ks : List String) (c : String)
    (hc : c ∈ (mergeKeys path b t o ks).2) :
    c ∈ (mergeKeys path b t o (k' :: ks)).2 := by
  rw [mergeKeys_cons]
  cases mergeKeyEntry path b t o k' with
  | none => exact hc
  | some vc => simp [hc]

theorem mergeKeys_lookup_not_mem (path : String) (b t o : List (String × Json))
    (k : String) : ∀ (ks : List String), k ∉ ks →
    jsonLookup k (mergeKeys path b t o ks).1 = none := by
  intro ks
  induction ks with
  | nil => intro _; simp [mergeKeys, jsonLookup]
  | cons k' ks ih =>
    intro hk
    have hne : k' ≠ k := fun h => hk (h ▸ List.mem_cons_self k' ks)
    have hnk : k ∉ ks := fun h => hk (List.mem_cons_of_mem _ h)
    rw [mergeKeys_lookup_cons_ne path b t o k' k ks hne]
    exact ih hnk

theorem mergeKeys_lookup_mem (path : String) (b t o : List (String × Json)) (k : String) :
    ∀ (ks : List String), ks.Nodup → k ∈ ks →
    jsonLookup k (mergeKeys path b t o ks).1 = (mergeKeyEntry path b t o k).map Prod.fst ∧
    (∀ c vc, mergeKeyEntry path b t o k = some vc → c ∈ vc.2 →
      c ∈ (mergeKeys path b t o ks).2) := by
  intro ks
  induction ks with
  | nil => intro _ hk; simp at hk
  | cons k' ks ih =>
    intro hnd hk
    by_cases hkk : k' = k
    · subst hkk
      have hnk : k' ∉ ks := (List.nodup_cons.mp hnd).1
      rw [mergeKeys_cons]
      cases hE : mergeKeyEntry path b t o k' with
      | none =>
        refine ⟨?_, ?_⟩
        · simp [mergeKeys_lookup_not_mem path b t o k' ks hnk]
        · intro c vc hvc _
          exact absurd hvc (by simp)
      | some vc =>
        refine ⟨by simp [jsonLookup], ?_⟩
        intro c vc' hvc hcin
        injection hvc with hvc
        subst hvc
        simp [hcin]
    · have hne : k' ≠ k := hkk
      have hmem : k ∈ ks := by
        rcases List.mem_cons.mp hk with h | h
        · exact absurd h.symm hne
        · exact h
      have IH := ih (List.nodup_cons.mp hnd).2 hmem
      refine ⟨?_, ?_⟩
      · rw [mergeKeys_lookup_cons_ne path b t o k' k ks hne]
        exact IH.1
      · intro c vc hvc hcin
        exact mergeKeys_conflicts_cons_sub path b t o k' ks c (IH.2 c vc hvc hcin)

theorem mergeKeyEntry_all (b t o : List (String × Json)) (k : String) (bv tv ov : Json)
    (hb : jsonLookup k b = some bv) (ht : jsonLookup k t = some tv)
    (ho : jsonLookup k o = some ov) :
    mergeKeyEntry "" b t o k = some (mergeValue k bv tv ov) := by
  simp only [mergeKeyEntry]
  split <;> simp_all

theorem mergeKeyEntry_pack_only {b t o : List (String × Json)} {k : String} {tv : Json}
    (hb : jsonLookup k b = none) (ht : jsonLookup k t = some tv)
    (ho : jsonLookup k o = none) :
    mergeKeyEntry "" b t o k = some (tv, []) := by
  simp only [mergeKeyEntry]
  split <;> simp_all

theorem mergeKeyEntry_user_only {b t o : List (String × Json)} {k : String} {ov : Json}
    (hb : jsonLookup k b = none) (ht : jsonLookup k t = none)
    (ho : jsonLookup k o = some ov) :
    mergeKeyEntry "" b t o k = some (ov, []) := by
  simp only [mergeKeyEntry]
  split <;> simp_all

theorem mergeKeyEntry_removed_changed {b t o : List (String × Json)} {k : String}
    {bv tv : Json} (hb : jsonLookup k b = some bv) (ht : jsonLookup k t = some tv)
    (ho : jsonLookup k o = none) (hbeq : Json.beq bv tv = false) :
    mergeKeyEntry "" b t o k
      = some (tv, ["conflict at " ++ k ++ ": user removed but pack changed"]) := by
  simp only [mergeKeyEntry]
  split <;> simp_all

theorem mergeKeyEntry_both_removed {b t o : List (String × Json)} {k : String}
    {bv : Json} (hb : jsonLookup k b = some bv) (ht : jsonLookup k t = none)
    (ho : jsonLookup k o = none) :
    mergeKeyEntry "" b t o k = none := by
  simp only [mergeKeyEntry]
  split <;> simp_all

/-- C5: `MergeJSON` (on parsed documents) merges mapping nodes
recursively: a key added on only one side is adopted, a key removed by
the user but changed by the pack is restored with a conflict recorded, a
key removed by both sides is dropped, and a scalar changed by both user
and pack to different values takes the user value with a conflict
recorded; on the Scenario-6 documents the merged document is
`\x7b"a":3,"b":2\x7d` with exactly one conflict. -/
theorem C5_merge_json :
    (MergeJSONValues
        (.obj [("a", .num 1), ("b", .num 2)])
        (.obj [("a", .num 2), ("b", .num 2)])
        (.obj [("a", .num 3), ("b", .num 2)])
      = (.obj [("a", .num 3), ("b", .num 2)],
         ["conflict at a: user and pack both changed"])) ∧
    (∀ (b t o : List (String × Json)) (k : String) (tv : Json),
      jsonLookup k b = none → jsonLookup k t = some tv → jsonLookup k o = none →
      jsonLookup k (mergeObjects b t o).1 = some tv) ∧
    (∀ (b t o : List (String × Json)) (k : String) (ov : Json),
      jsonLookup k b = none → jsonLookup k t = none → jsonLookup k o = some ov →
      jsonLookup k (mergeObjects b t o).1 = some ov) ∧
    (∀ (b t o : List (String × Json)) (k : String) (bv tv : Json),
      jsonLookup k b = some bv → jsonLookup k t = some tv → jsonLookup k o = none →
      Json.beq bv tv = false →
      jsonLookup k (mergeObjects b t o).1 = some tv ∧
      ("conflict at " ++ k ++ ": user removed but pack changed") ∈ (mergeObjects b t o).2) ∧
    (∀ (b t o : List (String × Json)) (k : String) (bv : Json),
      jsonLookup k b = some bv → jsonLookup k t = none → jsonLookup k o = none →
      jsonLookup k (mergeObjects b t o).1 = none) ∧
    (∀ (path : String) (x y z : Int), x ≠ y → x ≠ z → y ≠ z →
      mergeValue path (.num x) (.num y) (.num z)
        = (.num z, ["conflict at " ++ path ++ ": user and pack both changed"])) := by
  have hscalar : ∀ (path : String) (x y z : Int), x ≠ y → x ≠ z → y ≠ z →
      mergeValue path (.num x) (.num y) (.num z)
        = (.num z, ["conflict at " ++ path ++ ": user and pack both changed"]) := by
    intro path x y z hxy hxz hyz
    rw [mergeValue.eq_def]
    simp only [Json.beq]
    have e1 : (x == z) = false := by simp [hxz]
    have e2 : (x == y) = false := by simp [hxy]
    have e3 : (y == z) = false := by simp [hyz]
    simp [e1, e2, e3]
  refine ⟨?_, ?_, ?_, ?_, ?_, hscalar⟩
  · have hks : allKeysSorted [("a", Json.num 1), ("b", Json.num 2)]
        [("a", Json.num 2), ("b", Json.num 2)] [("a", Json.num 3), ("b", Json.num 2)]
        = ["a", "b"] := by
      decide
    have hmva := hscalar "a" 1 2 3 (by decide) (by decide) (by decide)
    have ha : mergeKeyEntry "" [("a", Json.num 1), ("b", Json.num 2)]
        [("a", Json.num 2), ("b", Json.num 2)] [("a", Json.num 3), ("b", Json.num 2)] "a"
        = some (.num 3, ["conflict at a: user and pack both changed"]) := by
      rw [mergeKeyEntry_all _ _ _ "a" (Json.num 1) (Json.num 2) (Json.num 3)
        (by simp [jsonLookup]) (by simp [jsonLookup]) (by simp [jsonLookup]), hmva]
      rfl
    have hmvb : mergeValue "b" (.num 2) (.num 2) (.num 2) = (.num 2, []) := by
      rw [mergeValue.eq_def]
      simp [Json.beq]
    have hb : mergeKeyEntry "" [("a", Json.num 1), ("b", Json.num 2)]
        [("a", Json.num 2), ("b", Json.num 2)] [("a", Json.num 3), ("b", Json.num 2)] "b"
        = some (.num 2, []) := by
      rw [mergeKeyEntry_all _ _ _ "b" (Json.num 2) (Json.num 2) (Json.num 2)
        (by simp [jsonLookup]) (by simp [jsonLookup]) (by simp [jsonLookup]), hmvb]
    unfold MergeJSONValues
    rw [mergeValue.eq_def]
    simp only [hks, mergeKeys_cons, ha, hb]
    simp [mergeKeys]
  · intro b t o k tv hb ht ho
    have hk : k ∈ allKeysSorted b t o := by
      rw [mem_allKeysSorted]
      simp [jsonLookup_mem_keys ht]
    have L := mergeKeys_lookup_mem "" b t o k (allKeysSorted b t o)
      (allKeysSorted_nodup b t o) hk
    unfold mergeObjects
    rw [L.1, mergeKeyEntry_pack_only hb ht ho]
    rfl
  · intro b t o k ov hb ht ho
    have hk : k ∈ allKeysSorted b t o := by
      rw [mem_allKeysSorted]
      simp [jsonLookup_mem_keys ho]
    have L := mergeKeys_lookup_mem "" b t o k (allKeysSorted b t o)
      (allKeysSorted_nodup b t o) hk
    unfold mergeObjects
    rw [L.1, mergeKeyEntry_user_only hb ht ho]
    rfl
  · intro b t o k bv tv hb ht ho hbeq
    have hk : k ∈ allKeysSorted b t o := by
      rw [mem_allKeysSorted]
      simp [jsonLookup_mem_keys ht]
    have L := mergeKeys_lookup_mem "" b t o k (allKeysSorted b t o)
      (allKeysSorted_nodup b t o) hk
    have hE := mergeKeyEntry_removed_changed hb ht ho hbeq
    constructor
    · unfold mergeObjects
      rw [L.1, hE]
      rfl
    · exact L.2 _ _ hE (by simp)
  · intro b t o k bv hb ht ho
    have hk : k ∈ allKeysSorted b t o := by
      rw [mem_allKeysSorted]
      simp [jsonLookup_mem_keys hb]
    have L := mergeKeys_lookup_mem "" b t o k (allKeysSorted b t o)
      (allKeysSorted_nodup b t o) hk
    unfold mergeObjects
    rw [L.1, mergeKeyEntry_both_removed hb ht ho]
    rfl

/-- C5 witness: restoring a user-deleted key the pack changed, and a
two-sided scalar conflict, at concrete inputs. -/
theorem C5_merge_json_witness :
    jsonLookup "k" (mergeObjects [("k", .num 1)] [("k", .num 2)] []).1 = some (.num 2) ∧
    ("conflict at " ++ "k" ++ ": user removed but pack changed")
      ∈ (mergeObjects [("k", .num 1)] [("k", .num 2)] []).2 ∧
    mergeValue "p" (.num 1) (.num 2) (.num 3)
      = (.num 3, ["conflict at " ++ "p" ++ ": user and pack both changed"]) := by
  have H := C5_merge_json.2.2.2.1 [("k", Json.num 1)] [("k", Json.num 2)] [] "k"
    (.num 1) (.num 2) rfl rfl rfl (by decide)
  exact ⟨H.1, H.2, C5_merge_json.2.2.2.2.2 "p" 1 2 3 (by decide) (by decide) (by decide)⟩
